import Mathlib

set_option maxHeartbeats 1000000

/-!
Verification development for the scrape-to-relational normalization and
idempotent upsert engine: shallow embeddings of the pure logic of
`tasks/BAIDU_HOT.py`, `tasks/DOUBAN_HOT.py` and `main.py`, together with
theorems about the claimed properties.  The HTTP transport, the DOM parsing
primitives and the MySQL connection handling are external collaborators; the
SQL statements issued by the code are modelled by explicit state-passing
functions whose behaviour follows the documented semantics of those
statements (INSERT ... ON DUPLICATE KEY UPDATE, INSERT IGNORE, DELETE ...
WHERE id IN, SELECT with a unique key).
-/

/-! ### Python string primitives

The Python string methods the scrapers use (`str.strip`, `str.split`,
`str.lower`, `"sep".join`), modelled over the character list of the
string. -/

/-- Python `s.strip()`: remove whitespace from both ends. -/
def pyStrip (s : String) : String :=
  String.mk (((s.toList.dropWhile Char.isWhitespace).reverse.dropWhile
    Char.isWhitespace).reverse)

/-- Worker for `s.split(sep)`: split on every non-overlapping occurrence of
`sep`, scanning left to right (`acc` holds the current fragment,
reversed). -/
def splitOnAux (sep : List Char) : List Char → List Char → List (List Char)
  | [], acc => [acc.reverse]
  | c :: cs, acc =>
    if sep.isPrefixOf (c :: cs) then
      acc.reverse :: splitOnAux sep (cs.drop (sep.length - 1)) []
    else splitOnAux sep cs (c :: acc)
termination_by l => l.length
decreasing_by
  · have h := List.length_drop (sep.length - 1) cs
    simp only [List.length_cons]
    omega
  · simp

/-- Python `s.split(sep)` for a non-empty separator. -/
def pySplitOn (s : String) (sep : String) : List String :=
  (splitOnAux sep.toList s.toList []).map String.mk

/-- Worker for Python `s.split()` (no separator): whitespace runs separate
the fragments and empty fragments do not occur. -/
def wsSplitGo : List Char → List String
  | [] => []
  | c :: cs =>
    if c.isWhitespace then wsSplitGo cs
    else String.mk (c :: cs.takeWhile (fun ch => !ch.isWhitespace)) ::
      wsSplitGo (cs.dropWhile (fun ch => !ch.isWhitespace))
termination_by l => l.length
decreasing_by
  · simp
  · have h := (List.dropWhile_sublist (l := cs)
      (fun ch => !ch.isWhitespace)).length_le
    simp only [List.length_cons]
    omega

/-- Python `s.split()`. -/
def pySplitWs (s : String) : List String := wsSplitGo s.toList

/-- Python `s.lower()` on the ASCII range (every term of the genre
vocabulary it is compared against is ASCII). -/
def lowerAscii (s : String) : String :=
  String.mk (s.toList.map (fun c =>
    if 'A' ≤ c ∧ c ≤ 'Z' then Char.ofNat (c.toNat + 32) else c))

/-- Python `sep.join(parts)`. -/
def joinWith (sep : String) : List String → String
  | [] => ""
  | [s] => s
  | s :: rest => s ++ sep ++ joinWith sep rest

namespace Baidu

/-- JSON-like values: the shape of the data tree obtained by `json.loads`
from the embedded `window.__INITIAL_STATE__` blob in `BAIDU_HOT.py`.
Numbers are modelled as integers; no claim depends on numeric values. -/
inductive JVal where
  | null : JVal
  | bool : Bool → JVal
  | num : Int → JVal
  | str : String → JVal
  | arr : List JVal → JVal
  | obj : List (String × JVal) → JVal

/-- Key lookup in a parsed JSON object (Python `dict` access; keys of a
parsed dict are unique, so first-match lookup is the dict lookup). -/
def jLookup : List (String × JVal) → String → Option JVal
  | [], _ => none
  | (k, v) :: rest, key => if k = key then some v else jLookup rest key

mutual

/-- The inner recursive function `dig` of `parse_from_initial_state`
(`BAIDU_HOT.py`): on a dict, return `obj["items"]` when that key holds a
list, otherwise recurse over the values in order; on a list, recurse over
the elements in order; otherwise return `None`. -/
def dig : JVal → Option (List JVal)
  | JVal.obj kvs =>
    match jLookup kvs "items" with
    | some (JVal.arr xs) => some xs
    | _ => digVals kvs
  | JVal.arr xs => digElems xs
  | _ => none

/-- The `for v in obj.values()` loop of `dig`. -/
def digVals : List (String × JVal) → Option (List JVal)
  | [] => none
  | (_, v) :: rest =>
    match dig v with
    | some r => some r
    | none => digVals rest

/-- The `for v in obj` loop of `dig` on lists. -/
def digElems : List JVal → Option (List JVal)
  | [] => none
  | v :: rest =>
    match dig v with
    | some r => some r
    | none => digElems rest

end

mutual

/-- Structural boolean equality of JSON values (used to model MySQL's
affected-row count, which reports 0 when an upserted row is unchanged). -/
def jvalBeq : JVal → JVal → Bool
  | JVal.null, JVal.null => true
  | JVal.bool a, JVal.bool b => a == b
  | JVal.num a, JVal.num b => a == b
  | JVal.str a, JVal.str b => a == b
  | JVal.arr xs, JVal.arr ys => jvalListBeq xs ys
  | JVal.obj xs, JVal.obj ys => jvalKVBeq xs ys
  | _, _ => false

def jvalListBeq : List JVal → List JVal → Bool
  | [], [] => true
  | x :: xs, y :: ys => jvalBeq x y && jvalListBeq xs ys
  | _, _ => false

def jvalKVBeq : List (String × JVal) → List (String × JVal) → Bool
  | [], [] => true
  | (k1, v1) :: xs, (k2, v2) :: ys => k1 == k2 && jvalBeq v1 v2 && jvalKVBeq xs ys
  | _, _ => false

end

/-- Python truthiness of a JSON value: None, False, 0, empty string, empty
list and empty dict are falsy. -/
def jTruthy : JVal → Bool
  | JVal.null => false
  | JVal.bool b => b
  | JVal.num n => decide (n ≠ 0)
  | JVal.str s => decide (s ≠ "")
  | JVal.arr xs => !xs.isEmpty
  | JVal.obj kvs => !kvs.isEmpty

/-- Python `a or b` on JSON values. -/
def jOr (a b : JVal) : JVal := if jTruthy a then a else b

/-- Python `it.get(k)` on a parsed dict: an absent key gives None. -/
def jGet (kvs : List (String × JVal)) (k : String) : JVal :=
  (jLookup kvs k).getD JVal.null

/-- One candidate item produced by the extractor (`{"rank": i, "title":
title, "url": url}` in `BAIDU_HOT.py`); the url slot keeps whatever JSON
value the or-chain produced. -/
structure HotItem where
  rank : Nat
  title : String
  url : JVal

/-- The title computation of `parse_from_initial_state`:
`(it.get("word") or it.get("query") or it.get("title") or it.get("content")
or "").strip()`.  If the first truthy candidate is not a string, Python
raises AttributeError on `.strip()`; that uncaught exception is the error
case. -/
def titleOf (kvs : List (String × JVal)) : Except String String :=
  match jOr (jOr (jOr (jGet kvs "word") (jGet kvs "query")) (jGet kvs "title"))
      (jGet kvs "content") with
  | JVal.str s => Except.ok (pyStrip s)
  | x => if jTruthy x then Except.error "AttributeError: strip" else Except.ok ""

/-- `it.get("url") or it.get("appUrl") or it.get("redirectUrl")`. -/
def urlOf (kvs : List (String × JVal)) : JVal :=
  jOr (jOr (jGet kvs "url") (jGet kvs "appUrl")) (jGet kvs "redirectUrl")

/-- The `for i, it in enumerate(raw, start=1)` loop of
`parse_from_initial_state`: entries whose stripped title is empty are
skipped (their 1-based index is still consumed); a non-dict entry raises
AttributeError on `.get`, which is not caught anywhere. -/
def buildItems : Nat → List JVal → Except String (List HotItem)
  | _, [] => Except.ok []
  | i, JVal.obj kvs :: rest =>
    match titleOf kvs with
    | Except.error e => Except.error e
    | Except.ok title =>
      if title = "" then buildItems (i + 1) rest
      else
        match buildItems (i + 1) rest with
        | Except.error e => Except.error e
        | Except.ok out =>
          Except.ok ({ rank := i, title := title, url := urlOf kvs } :: out)
  | _, _ :: _ => Except.error "AttributeError: get"

/-- Outcome of the `re.search` for the embedded
`window.__INITIAL_STATE__` blob followed by `json.loads` (the regex engine
and the JSON parser are collaborators): either the regex does not match,
or the matched blob fails to parse, or it parses to a data tree. -/
inductive EmbeddedState where
  | absent : EmbeddedState
  | malformed : EmbeddedState
  | parsed : JVal → EmbeddedState

/-- One repeated card element as seen by the fallback HTML strategy:
the stripped text of the title element (`.c-single-text-ellipsis`, or the
first anchor) when one exists, and the href of the first anchor carrying
one. -/
structure HtmlCard where
  titleText : Option String
  href : Option String

/-- A fetched document, reduced to what the two strategies observe. -/
structure Document where
  state : EmbeddedState
  cards : List HtmlCard

/-- `parse_from_initial_state` (`BAIDU_HOT.py`): regex non-match and JSON
parse failure return None (the try/except around `json.loads` swallows the
exception); `if not raw` also returns None when `dig` found nothing or an
empty list; otherwise the item loop runs (and any AttributeError it raises
propagates). -/
def parse_from_initial_state (doc : Document) : Except String (Option (List HotItem)) :=
  match doc.state with
  | EmbeddedState.absent => Except.ok none
  | EmbeddedState.malformed => Except.ok none
  | EmbeddedState.parsed data =>
    match dig data with
    | none => Except.ok none
    | some raw =>
      if raw.isEmpty then Except.ok none
      else
        match buildItems 1 raw with
        | Except.error e => Except.error e
        | Except.ok items => Except.ok (some items)

def BAIDU_REALTIME_URL : String := "https://top.baidu.com/board?platform=pc&tab=realtime"

/-- Models `urllib.parse.urljoin` (collaborator primitive) for the cases
arising here: an absolute link is kept, anything else is resolved against
the base URL. -/
def urljoin (base rel : String) : String :=
  if "http://".isPrefixOf rel || "https://".isPrefixOf rel then rel else base ++ rel

/-- The card loop of `parse_from_html`: cards with an empty (or missing)
title are skipped and do not consume a rank slot. -/
def parse_from_html_go (rank : Nat) : List HtmlCard → List HotItem
  | [] => []
  | card :: rest =>
    let title := pyStrip (match card.titleText with | some s => s | none => "")
    if title = "" then parse_from_html_go rank rest
    else
      { rank := rank, title := title,
        url := match card.href with
               | some h => JVal.str (urljoin BAIDU_REALTIME_URL h)
               | none => JVal.null } :: parse_from_html_go (rank + 1) rest

/-- `parse_from_html` (`BAIDU_HOT.py`). -/
def parse_from_html (cards : List HtmlCard) : List HotItem :=
  parse_from_html_go 1 cards

/-- `get_top_n` (`BAIDU_HOT.py`): structured strategy first
(`parse_from_initial_state(html) or []`), fall back to the HTML strategy
when it yields fewer than `n` items, truncate to `n`. -/
def get_top_n (doc : Document) (n : Nat) : Except String (List HotItem) :=
  match parse_from_initial_state doc with
  | Except.error e => Except.error e
  | Except.ok r =>
    let items := r.getD []
    let items2 := if items.length < n then parse_from_html doc.cards else items
    Except.ok (items2.take n)

/-- A persisted row of `baidu_hotsearch`: surrogate id, rank, title, url
and the freshness timestamp, modelled as a (day, time-of-day) pair so that
the stored generated column `grabbed_date` is its first component.  The
unique key is `(title, grabbed_date)`. -/
structure HotRow where
  id : Nat
  rank_no : Nat
  title : String
  url : JVal
  grabbed_at : Nat × Nat

/-- The `baidu_hotsearch` table with its auto-increment counter. -/
structure HotTable where
  rows : List HotRow
  next_id : Nat

/-- One row of the `INSERT ... ON DUPLICATE KEY UPDATE` statement issued by
`save_items`: insert a fresh row, or on a `(title, grabbed_date)` conflict
overwrite `url` and `grabbed_at`.  The count follows MySQL: 1 for an
insert, 2 for an update changing the row, 0 when nothing changes. -/
def baiduUpsertRow (t : HotTable) (rank_no : Nat) (title : String) (url : JVal)
    (now : Nat × Nat) : Nat × HotTable :=
  match t.rows.find? (fun r => decide (r.title = title) && decide (r.grabbed_at.1 = now.1)) with
  | none =>
    (1, { rows := t.rows ++ [⟨t.next_id, rank_no, title, url, now⟩], next_id := t.next_id + 1 })
  | some r =>
    if jvalBeq r.url url && decide (r.grabbed_at = now) then (0, t)
    else
      (2, { t with rows := t.rows.map (fun r2 =>
              if decide (r2.title = title) && decide (r2.grabbed_at.1 = now.1) then
                { r2 with url := url, grabbed_at := now }
              else r2) })

/-- `executemany` over the parameter tuples `(rank_no, title, url)` with the
shared timestamp: total affected-row count and final table. -/
def execute_many (t : HotTable) (now : Nat × Nat) :
    List (Nat × String × JVal) → Nat × HotTable
  | [] => (0, t)
  | (rk, ti, u) :: rest =>
    let c := baiduUpsertRow t rk ti u now
    let cs := execute_many c.2 now rest
    (c.1 + cs.1, cs.2)

/-- `save_items` (`BAIDU_HOT.py`): build the parameter list from the items
whose title is truthy; if it is empty return 0 without touching the store,
otherwise run the batched upsert. -/
def save_items (t : HotTable) (items : List HotItem) (now : Nat × Nat) : Nat × HotTable :=
  let params := (items.filter (fun it => decide (¬ it.title = ""))).map
    (fun it => (it.rank, it.title, it.url))
  if params.isEmpty then (0, t)
  else execute_many t now params

/-- A list `xs` is stored under an `"items"` key of some dictionary node of
the tree (the dictionary's own key, or one reachable through values and
array elements). -/
inductive ItemsEntry : JVal → List JVal → Prop where
  | here (kvs : List (String × JVal)) (xs : List JVal) :
      jLookup kvs "items" = some (JVal.arr xs) → ItemsEntry (JVal.obj kvs) xs
  | objChild (kvs : List (String × JVal)) (k : String) (v : JVal) (xs : List JVal) :
      (k, v) ∈ kvs → ItemsEntry v xs → ItemsEntry (JVal.obj kvs) xs
  | arrChild (ys : List JVal) (v : JVal) (xs : List JVal) :
      v ∈ ys → ItemsEntry v xs → ItemsEntry (JVal.arr ys) xs

end Baidu

namespace Douban

/-- Value of a string of ASCII digits (`int(s)` on the digit strings the
parser feeds it). -/
def natOfDigits (s : String) : Nat :=
  s.toList.foldl (fun n c => n * 10 + (c.toNat - 48)) 0

/-- The scan of `re.search(r"/subject/(\d+)/", url)`: at each position try
the literal `/subject/`, then at least one digit, then `/`; on failure
resume the scan one character further. -/
def findSubjectId : List Char → Option String
  | [] => none
  | c :: cs =>
    if List.isPrefixOf ("/subject/".toList) (c :: cs) then
      let after := (c :: cs).drop 9
      let digs := after.takeWhile Char.isDigit
      if digs ≠ [] ∧ (after.dropWhile Char.isDigit).head? = some '/' then
        some (String.mk digs)
      else findSubjectId cs
    else findSubjectId cs

/-- The scan of `re.search(r"(\d{4})", s)`: the first four consecutive
digit characters. -/
def findFourDigits : List Char → Option Nat
  | [] => none
  | c :: cs =>
    if ((c :: cs).take 4).length = 4 ∧ ((c :: cs).take 4).all Char.isDigit then
      some (natOfDigits (String.mk ((c :: cs).take 4)))
    else findFourDigits cs

/-- The scan of `re.search(r"(\d[\d,]*)", s)` followed by
`int(group.replace(",", ""))`: the first maximal run starting with a digit
and continuing with digits or commas, commas removed. -/
def findVotes : List Char → Option Nat
  | [] => none
  | c :: cs =>
    if c.isDigit then
      some (natOfDigits (String.mk
        (((c :: cs).takeWhile (fun ch => ch.isDigit || ch == ',')).filter
          (fun ch => ch ≠ ','))))
    else findVotes cs

/-- Models Python `float(s)` (library primitive) on the decimal forms a
rating text takes: optional sign, digits with an optional fractional part;
anything else fails, which the caller turns into a null rating. -/
def parseFloat (s : String) : Option Rat :=
  let cs := (pyStrip s).toList
  let sgn : Int × List Char :=
    match cs with
    | '-' :: rest => (-1, rest)
    | '+' :: rest => (1, rest)
    | _ => (1, cs)
  let intPart := sgn.2.takeWhile Char.isDigit
  match sgn.2.dropWhile Char.isDigit with
  | [] =>
    if intPart = [] then none
    else some ((sgn.1 * (natOfDigits (String.mk intPart) : Int) : Int) : Rat)
  | '.' :: frac =>
    let fracD := frac.takeWhile Char.isDigit
    if frac.dropWhile Char.isDigit ≠ [] then none
    else if intPart = [] ∧ fracD = [] then none
    else some (((sgn.1 * ((natOfDigits (String.mk intPart) * 10 ^ fracD.length
      + natOfDigits (String.mk fracD) : Nat) : Int) : Int) : Rat)
      / ((10 ^ fracD.length : Nat) : Rat))
  | _ => none

/-- One pass of `re.sub(r"\s+", " ", s)`: each whitespace run becomes a
single space. -/
def collapseWsGo : List Char → List Char
  | [] => []
  | c :: cs =>
    if c.isWhitespace then ' ' :: collapseWsGo (cs.dropWhile Char.isWhitespace)
    else c :: collapseWsGo cs
termination_by l => l.length
decreasing_by
  · have h := (List.dropWhile_sublist (l := cs) Char.isWhitespace).length_le
    simp only [List.length_cons]
    omega
  · simp

def collapseWs (s : String) : String := String.mk (collapseWsGo s.toList)

/-- Python `s.strip(chars)`: remove the given characters from both ends. -/
def stripChars (s : String) (chars : String) : String :=
  String.mk (((s.toList.dropWhile (fun c => chars.toList.contains c)).reverse.dropWhile
    (fun c => chars.toList.contains c)).reverse)

/-- The scan of `re.search(r"导演[:：]\s*([^/]+)", s)`; the group is the
greedy run of non-`/` characters after the whitespace following the colon,
the regex backtracking into the final whitespace character when that run
would otherwise be empty; a position where only `/` or the end of the
string follows fails and the scan resumes. -/
def findDirectorGroup : List Char → Option String
  | [] => none
  | c :: cs =>
    if List.isPrefixOf ("导演".toList) (c :: cs) then
      match (c :: cs).drop 2 with
      | colon :: tail =>
        if colon = ':' ∨ colon = '：' then
          let afterWs := tail.dropWhile Char.isWhitespace
          let grp := afterWs.takeWhile (fun ch => ch ≠ '/')
          if grp ≠ [] then some (String.mk grp)
          else if tail.takeWhile Char.isWhitespace ≠ [] then
            some (String.mk [(tail.takeWhile Char.isWhitespace).getLastD ' '])
          else findDirectorGroup cs
        else findDirectorGroup cs
      | [] => findDirectorGroup cs
    else findDirectorGroup cs

/-- The director line: group(1) stripped when the 导演 pattern matches, else
the text before 主演; stripped and whitespace-collapsed. -/
def directorOf (line : String) : String :=
  let base :=
    match findDirectorGroup line.toList with
    | some g => pyStrip g
    | none => (pySplitOn line "主演").headD ""
  collapseWs (pyStrip base)

/-- The closed vocabulary `type_words` of genre terms. -/
def type_words : List String :=
  ["剧情", "喜剧", "动作", "爱情", "科幻", "动画", "悬疑", "惊悚", "恐怖", "纪录片", "短片",
   "情色", "同性", "音乐", "歌舞", "传记", "历史", "战争", "西部", "奇幻", "冒险", "灾难",
   "武侠", "古装", "犯罪", "家庭", "儿童", "运动", "真人秀", "脱口秀"]

/-- Case-insensitive full match against the English genre alternation
(Animation|Comedy|Action|Romance|Sci[- ]?Fi|Mystery|Thriller|Horror|
Documentary|Short|Biography|History|War|Western|Fantasy|Adventure|Crime|
Family|Music|Musical). -/
def englishGenre (w : String) : Bool :=
  (["animation", "comedy", "action", "romance", "scifi", "sci-fi", "sci fi",
    "mystery", "thriller", "horror", "documentary", "short", "biography",
    "history", "war", "western", "fantasy", "adventure", "crime", "family",
    "music", "musical"] : List String).contains (lowerAscii w)

/-- `[x for x in s.split() if x]`: Python `s.split()` already drops empty
fragments, the comprehension filter is the redundant guard around it. -/
def pySplit (s : String) : List String :=
  (pySplitWs s).filter (fun x => x ≠ "")

/-- One `div.item` movie card, reduced to the texts the parser reads: the
`em` text, the `div.hd a` anchor (href and text), the `span.title` texts,
the `span.other` text, the `span.rating_num` text, the text of the span
matching 评价, and the `div.bd p` text with fragments joined by newlines.
All element texts appear as `get_text(strip=True)` returns them. -/
structure Card where
  em : Option String
  hd_a : Option (String × String)
  title_spans : List String
  other : Option String
  rating_num : Option String
  votes_span : Option String
  bd_p : Option String
deriving Repr, DecidableEq

/-- One parsed movie dict as built by `parse_list`. -/
structure MovieItem where
  rank_no : Option Nat
  douban_id : Option String
  title : String
  original_title : Option String
  year : Option Nat
  rating : Option Rat
  votes : Option Nat
  director : Option String
  countries : List String
  genres : List String
  url : String
deriving Repr, DecidableEq

/-- The body of the card loop of `parse_list`: a card without the
`div.hd a` anchor is skipped (`continue`), every other card yields an
item. -/
def parseCard (div : Card) : Option MovieItem :=
  match div.hd_a with
  | none => none
  | some (url, atext) =>
    let rank_no :=
      match div.em with
      | some s => if s ≠ "" ∧ s.toList.all Char.isDigit then some (natOfDigits s) else none
      | none => none
    let douban_id := findSubjectId url.toList
    let title :=
      match div.title_spans with
      | t :: _ => t
      | [] => atext
    let original_title :=
      match div.title_spans with
      | _ :: t2 :: _ => if t2 ≠ "" then some (stripChars t2 " /") else none
      | _ =>
        match div.other with
        | some o => some (stripChars o " /")
        | none => none
    let rating :=
      match div.rating_num with
      | some s => parseFloat s
      | none => none
    let votes :=
      match div.votes_span with
      | some s => findVotes s.toList
      | none => none
    let parts := pySplitOn (div.bd_p.getD "") "\n"
    let director := directorOf (parts.headD "")
    let ycg : Option Nat × List String × List String :=
      match parts with
      | _ :: line2 :: _ =>
        let segs := ((pySplitOn line2 "/").map pyStrip).filter (fun x => x ≠ "")
        let year := findFourDigits (joinWith " " segs).toList
        let cands := segs.foldl (fun acc s =>
          if s.length = 4 ∧ s.toList.all Char.isDigit then acc
          else if s.toList.contains ' ' then acc ++ pySplit s
          else acc ++ [s]) []
        (year,
         cands.filter (fun w => !(decide (w ∈ type_words) || englishGenre w)),
         cands.filter (fun w => decide (w ∈ type_words) || englishGenre w))
      | _ => (none, [], [])
    some { rank_no := rank_no, douban_id := douban_id, title := title,
           original_title := original_title, year := ycg.1, rating := rating,
           votes := votes, director := some director, countries := ycg.2.1,
           genres := ycg.2.2, url := url }

/-- `parse_list` (`DOUBAN_HOT.py`). -/
def parse_list (cards : List Card) : List MovieItem :=
  cards.filterMap parseCard

/-- The dedup key of `crawl_top_n`:
`it.get("douban_id") or (it["title"], it.get("year"))` — a missing (or
empty, by Python truthiness) id falls through to the composite key. -/
def dedupeKey (it : MovieItem) : Sum String (String × Option Nat) :=
  match it.douban_id with
  | some s => if s = "" then Sum.inr (it.title, it.year) else Sum.inl s
  | none => Sum.inr (it.title, it.year)

/-- Membership in the `seen` set of dedup keys. -/
def keySeen (seen : List (Sum String (String × Option Nat)))
    (k : Sum String (String × Option Nat)) : Bool :=
  seen.any (fun s => decide (s = k))

/-- The dedup loop of `crawl_top_n`: the first occurrence of each key is
kept, later occurrences are dropped. -/
def dedupeGo (seen : List (Sum String (String × Option Nat))) :
    List MovieItem → List MovieItem
  | [] => []
  | it :: rest =>
    if keySeen seen (dedupeKey it) then dedupeGo seen rest
    else it :: dedupeGo (dedupeKey it :: seen) rest

def dedupeBatch (items : List MovieItem) : List MovieItem := dedupeGo [] items

/-- The sort key of `crawl_top_n`: `x["rank_no"] or 9999` (a missing rank,
or rank 0 by Python truthiness, becomes the sentinel 9999). -/
def rankKey (it : MovieItem) : Nat :=
  match it.rank_no with
  | some r => if r = 0 then 9999 else r
  | none => 9999

/-- The pure tail of `crawl_top_n` (`DOUBAN_HOT.py`): `all_items` is the
concatenation of the parsed pages (fetching and pacing are collaborators);
dedupe by key, sort ascending by rank key, truncate to `n`. -/
def crawl_top_n (all_items : List MovieItem) (n : Nat) : List MovieItem :=
  (((dedupeBatch all_items).mergeSort (fun a b => rankKey a ≤ rankKey b)).take n)

/-- A persisted `douban_movies` row.  `douban_id` and `rank_no` are NOT
NULL columns; `grabbed_at` is the freshness timestamp.  The unique key is
`douban_id`. -/
structure MovieRow where
  id : Nat
  douban_id : String
  rank_no : Nat
  title : String
  original_title : Option String
  year : Option Nat
  rating : Option Rat
  votes : Option Nat
  director : Option String
  url : Option String
  grabbed_at : Nat
deriving Repr, DecidableEq

/-- The `douban_movies` table with its auto-increment counter. -/
structure MoviesTable where
  rows : List MovieRow
  next_id : Nat
deriving Repr, DecidableEq

/-- The ON DUPLICATE KEY UPDATE branch of `UPSERT_MOVIE_SQL`: all mutable
attributes and the freshness timestamp are overwritten, `id` and
`douban_id` stay. -/
def updateMovieRow (r : MovieRow) (m : MovieItem) (rk : Nat) (now : Nat) : MovieRow :=
  { r with rank_no := rk, title := m.title, original_title := m.original_title,
           year := m.year, rating := m.rating, votes := m.votes,
           director := m.director, url := some m.url, grabbed_at := now }

/-- `upsert_movie` (`DOUBAN_HOT.py`): execute `UPSERT_MOVIE_SQL` (insert,
or update every mutable attribute on a `douban_id` conflict), then
`SELECT id FROM douban_movies WHERE douban_id=%s` and return
`row[0]["id"]`.  Passing NULL for the NOT NULL columns `douban_id` or
`rank_no` is an integrity error (MySQL 1048) that propagates. -/
def upsert_movie (db : MoviesTable) (m : MovieItem) (now : Nat) :
    Except String (Nat × MoviesTable) :=
  match m.douban_id, m.rank_no with
  | none, _ => Except.error "1048: Column douban_id cannot be null"
  | some _, none => Except.error "1048: Column rank_no cannot be null"
  | some k, some rk =>
    let db2 : MoviesTable :=
      if db.rows.any (fun r => decide (r.douban_id = k)) then
        { db with rows := db.rows.map (fun r =>
            if r.douban_id = k then updateMovieRow r m rk now else r) }
      else
        { rows := db.rows ++ [⟨db.next_id, k, rk, m.title, m.original_title, m.year,
            m.rating, m.votes, m.director, some m.url, now⟩],
          next_id := db.next_id + 1 }
    match db2.rows.filter (fun r => decide (r.douban_id = k)) with
    | [] => Except.error "IndexError: list index out of range"
    | r :: _ => Except.ok (r.id, db2)

/-- A dimension table (`douban_genre` / `douban_country`): rows of
(surrogate id, name) with a unique name column, plus the auto-increment
counter. -/
structure DimTable where
  rows : List (Nat × String)
  next_id : Nat
deriving Repr, DecidableEq

/-- The dimension upsert of `ensure_dim_and_map`:
`INSERT INTO dim(name) VALUES (%s) ON DUPLICATE KEY UPDATE
id = LAST_INSERT_ID(id), name = VALUES(name)` followed by reading
`cur.lastrowid` — one round trip returning the surrogate id whether the
row was created or already existed. -/
def dimUpsert (t : DimTable) (name : String) : Nat × DimTable :=
  match t.rows.find? (fun p => decide (p.2 = name)) with
  | some p => (p.1, t)
  | none => (t.next_id, ⟨t.rows ++ [(t.next_id, name)], t.next_id + 1⟩)

/-- `INSERT IGNORE INTO map(movie_id, *_id) VALUES (%s, %s)`: the composite
primary key makes a duplicate insert a silent no-op. -/
def insertIgnore (assoc : List (Nat × Nat)) (movie_id dim_id : Nat) : List (Nat × Nat) :=
  if (movie_id, dim_id) ∈ assoc then assoc else assoc ++ [(movie_id, dim_id)]

/-- The cleaning loop of `ensure_dim_and_map`: trim, drop empties, drop
duplicates keeping first-seen order. -/
def cleanNamesGo (seen : List String) : List String → List String
  | [] => []
  | n :: rest =>
    if pyStrip n = "" then cleanNamesGo seen rest
    else if pyStrip n ∈ seen then cleanNamesGo seen rest
    else pyStrip n :: cleanNamesGo (pyStrip n :: seen) rest

def cleanNames (names : List String) : List String := cleanNamesGo [] names

/-- The per-name loop of `ensure_dim_and_map`: dimension upsert, then the
idempotent association insert. -/
def ensureLoop (movie_id : Nat) : List String → DimTable → List (Nat × Nat) →
    DimTable × List (Nat × Nat)
  | [], dim, assoc => (dim, assoc)
  | n :: rest, dim, assoc =>
    let u := dimUpsert dim n
    ensureLoop movie_id rest u.2 (insertIgnore assoc movie_id u.1)

/-- `ensure_dim_and_map` (`DOUBAN_HOT.py`): clean the incoming names; an
empty cleaned list is a no-op; otherwise run the per-name loop against the
dimension table and the association table. -/
def ensure_dim_and_map (movie_id : Nat) (names : List String) (dim : DimTable)
    (assoc : List (Nat × Nat)) : DimTable × List (Nat × Nat) :=
  let clean := cleanNames names
  if clean = [] then (dim, assoc)
  else ensureLoop movie_id clean dim assoc

/-- Invariants MySQL maintains on a dimension table: the name column is
unique, the surrogate ids are unique, and every id is below the
auto-increment counter. -/
def DimInv (t : DimTable) : Prop :=
  (t.rows.map (fun p => p.2)).Nodup ∧ (t.rows.map (fun p => p.1)).Nodup ∧
    ∀ p ∈ t.rows, p.1 < t.next_id

/-- Number of copies of an association pair in a map table (its composite
primary key makes this 0 or 1 in well-formed states). -/
def pairCount (assoc : List (Nat × Nat)) (q : Nat × Nat) : Nat :=
  (assoc.filter (fun x => decide (x = q))).length

end Douban

namespace UsersDemo

/-- A `test_users` row: surrogate id (primary key), name, email (the
natural key the reconciler groups on). -/
structure UserRow where
  id : Nat
  name : String
  email : String
deriving Repr, DecidableEq

/-- The duplicate query of `cmd_dedupe`: `SELECT DISTINCT t1.id FROM
test_users t1 JOIN test_users t2 ON t1.email = t2.email AND t1.id > t2.id`
— the ids of every row for which a same-email row with a strictly smaller
id exists. -/
def dupIds (t : List UserRow) : List Nat :=
  ((t.filter (fun r1 =>
      t.any (fun r2 => decide (r1.email = r2.email) && decide (r2.id < r1.id)))).map
    (fun r => r.id)).dedup

/-- `DELETE FROM test_users WHERE id IN (batch)`. -/
def deleteIds (t : List UserRow) (ids : List Nat) : List UserRow :=
  t.filter (fun r => decide (r.id ∉ ids))

/-- The chunked deletion loop of `cmd_dedupe` (CHUNK = 500): delete the ids
500 at a time, accumulating the affected-row count of each DELETE. -/
def deleteChunks (t : List UserRow) (ids : List Nat) : Nat × List UserRow :=
  if h : ids = [] then (0, t)
  else
    let t2 := deleteIds t (ids.take 500)
    let rest := deleteChunks t2 (ids.drop 500)
    (t.length - t2.length + rest.1, rest.2)
termination_by ids.length
decreasing_by
  simp only [List.length_drop]
  have hp := List.length_pos.mpr h
  omega

/-- `cmd_dedupe` (`main.py`): fetch the loser ids; return without deleting
when there are none; otherwise delete them in chunks and report the
total removed count. -/
def cmd_dedupe (t : List UserRow) : Nat × List UserRow :=
  let ids := dupIds t
  if ids = [] then (0, t)
  else deleteChunks t ids

end UsersDemo

/-! ### Helper lemmas -/

/-- In a list whose keys (under `f`) are pairwise distinct, filtering for
the key of a member `x` yields exactly `[x]`. -/
theorem filter_key_eq_singleton {α β : Type} [DecidableEq β] (f : α → β) :
    ∀ (l : List α) (x : α) (k : β), (l.map f).Nodup → x ∈ l → f x = k →
      l.filter (fun a => decide (f a = k)) = [x] := by
  intro l
  induction l with
  | nil => intro x k _ hx; exact absurd hx (List.not_mem_nil x)
  | cons a l ih =>
    intro x k hnd hx hk
    rw [List.map_cons, List.nodup_cons] at hnd
    rcases List.mem_cons.mp hx with rfl | hx
    · have hl : l.filter (fun a => decide (f a = k)) = [] := by
        rw [List.filter_eq_nil_iff]
        intro b hb
        simp only [decide_eq_true_eq]
        intro hbk
        exact hnd.1 (hk ▸ hbk ▸ List.mem_map_of_mem f hb)
      simp [List.filter_cons, hk, hl]
    · have hak : ¬ f a = k := by
        intro hak
        exact hnd.1 ((hak.trans hk.symm) ▸ List.mem_map_of_mem f hx)
      rw [List.filter_cons]
      have hak' : decide (f a = k) = false := by simpa using hak
      rw [hak']
      simp only [Bool.false_eq_true, if_false]
      exact ih x k hnd.2 hx hk

/-- A list all of whose elements fail the predicate filters to `[]`. -/
theorem filter_eq_nil_of_all {α : Type} (p : α → Bool) (l : List α)
    (h : ∀ a ∈ l, p a = false) : l.filter p = [] := by
  rw [List.filter_eq_nil_iff]
  intro a ha
  simp [h a ha]

/-! ### C10 -/

/-- C10: for every item list in which no item has a non-empty title
(including the empty list), `save_items` returns 0 and issues no write:
the persisted table is returned unchanged. -/
theorem save_items_empty_noop (t : Baidu.HotTable) (items : List Baidu.HotItem)
    (now : Nat × Nat) (h : ∀ it ∈ items, it.title = "") :
    Baidu.save_items t items now = (0, t) := by
  have hf : items.filter (fun it => decide (¬ it.title = "")) = [] := by
    apply filter_eq_nil_of_all
    intro it hit
    simp [h it hit]
  unfold Baidu.save_items
  rw [hf]
  rfl

/-- Witness for C10 at a concrete table and item list. -/
theorem save_items_empty_noop_witness :
    Baidu.save_items ⟨[⟨1, 1, "a", Baidu.JVal.null, (3, 4)⟩], 2⟩
      [⟨1, "", Baidu.JVal.null⟩] (5, 6) =
      (0, ⟨[⟨1, 1, "a", Baidu.JVal.null, (3, 4)⟩], 2⟩) :=
  save_items_empty_noop _ _ _ (by intro it hit; simp at hit; simp [hit])

/-! ### C4 -/

/-- C4 counterexample: a candidate record with no explicit external id is
not persisted under a composite (title, year) key — on the empty table the
upsert fails with the NOT NULL integrity error on `douban_id` and returns
no surrogate id at all. -/
theorem upsert_movie_no_natural_id_counterexample :
    Douban.upsert_movie ⟨[], 1⟩
      { rank_no := some 1, douban_id := none, title := "X",
        original_title := none, year := some 2001, rating := none,
        votes := none, director := none, countries := [], genres := [],
        url := "u" } 7 =
      Except.error "1048: Column douban_id cannot be null" := rfl

/-- C4 (amended): when a candidate record provides no explicit external
id, `upsert_movie` does not derive a composite natural key — the INSERT
passes NULL for the NOT NULL `douban_id` column, the call fails with the
integrity error, and no row is persisted and no surrogate id returned. -/
theorem upsert_movie_no_natural_id (db : Douban.MoviesTable)
    (m : Douban.MovieItem) (now : Nat) (h : m.douban_id = none) :
    Douban.upsert_movie db m now =
      Except.error "1048: Column douban_id cannot be null" := by
  unfold Douban.upsert_movie
  rw [h]

/-- Witness for the amended C4 at a concrete record. -/
theorem upsert_movie_no_natural_id_witness :
    Douban.upsert_movie ⟨[], 1⟩
      { rank_no := some 2, douban_id := none, title := "Y",
        original_title := none, year := none, rating := none,
        votes := none, director := none, countries := [], genres := [],
        url := "v" } 3 =
      Except.error "1048: Column douban_id cannot be null" :=
  upsert_movie_no_natural_id _ _ _ rfl

/-! ### C5 -/

theorem keySeen_cons (x k : Sum String (String × Option Nat))
    (seen : List (Sum String (String × Option Nat))) :
    Douban.keySeen (x :: seen) k = (decide (x = k) || Douban.keySeen seen k) := by
  simp [Douban.keySeen]

/-- The dedup loop keeps, for every key, exactly the first input occurrence
not already blocked by `seen`. -/
theorem dedupeGo_filter (k : Sum String (String × Option Nat)) :
    ∀ (items : List Douban.MovieItem)
      (seen : List (Sum String (String × Option Nat))),
      (Douban.dedupeGo seen items).filter (fun it => decide (Douban.dedupeKey it = k)) =
        if Douban.keySeen seen k then []
        else (items.filter (fun it => decide (Douban.dedupeKey it = k))).take 1 := by
  intro items
  induction items with
  | nil =>
    intro seen
    by_cases h : Douban.keySeen seen k = true <;> simp [Douban.dedupeGo, h]
  | cons it rest ih =>
    intro seen
    unfold Douban.dedupeGo
    by_cases hseen : Douban.keySeen seen (Douban.dedupeKey it) = true
    · rw [if_pos hseen, ih seen]
      by_cases hks : Douban.keySeen seen k = true
      · rw [if_pos hks, if_pos hks]
      · rw [if_neg hks, if_neg hks, List.filter_cons]
        have hne : ¬ Douban.dedupeKey it = k := fun he => hks (he ▸ hseen)
        simp [hne]
    · rw [if_neg hseen, List.filter_cons]
      by_cases hk : Douban.dedupeKey it = k
      · have hs' : Douban.keySeen (Douban.dedupeKey it :: seen) k = true := by
          rw [keySeen_cons]
          simp [hk]
        have hks : ¬ Douban.keySeen seen k = true := by
          rw [← hk]
          exact hseen
        rw [ih (Douban.dedupeKey it :: seen), if_pos hs', if_neg hks,
          List.filter_cons]
        simp [hk]
      · have hs' : Douban.keySeen (Douban.dedupeKey it :: seen) k =
            Douban.keySeen seen k := by
          rw [keySeen_cons]
          simp [hk]
        rw [ih (Douban.dedupeKey it :: seen), hs']
        by_cases hks : Douban.keySeen seen k = true
        · rw [if_pos hks, if_pos hks]
          simp [hk]
        · rw [if_neg hks, if_neg hks, List.filter_cons]
          simp [hk]

/-- C5: the batch dedupe step of `crawl_top_n` keys each item by its
natural external id when present (and non-empty) and otherwise by the
composite (title, year); for every key, the output contains exactly the
first input occurrence of that key — one entry, carrying the first
occurrence's attributes, later duplicates dropped without merging. -/
theorem dedupe_first_occurrence_wins (items : List Douban.MovieItem)
    (k : Sum String (String × Option Nat)) :
    (Douban.dedupeBatch items).filter (fun it => decide (Douban.dedupeKey it = k)) =
      (items.filter (fun it => decide (Douban.dedupeKey it = k))).take 1 := by
  unfold Douban.dedupeBatch
  rw [dedupeGo_filter k items []]
  simp [Douban.keySeen]

/-! ### C9 -/

/-- C9: malformed embedded data (regex non-match or JSON parse failure)
never raises out of the extractor — `parse_from_initial_state` returns the
no-result value and `get_top_n` falls back to the heuristic HTML strategy;
a document on which both strategies yield nothing produces the empty
sequence rather than an error. -/
theorem extractor_error_containment (cards : List Baidu.HtmlCard) (n : Nat)
    (doc : Baidu.Document) :
    Baidu.parse_from_initial_state ⟨Baidu.EmbeddedState.absent, cards⟩ =
      Except.ok none ∧
    Baidu.parse_from_initial_state ⟨Baidu.EmbeddedState.malformed, cards⟩ =
      Except.ok none ∧
    (0 < n → Baidu.get_top_n ⟨Baidu.EmbeddedState.absent, cards⟩ n =
      Except.ok ((Baidu.parse_from_html cards).take n)) ∧
    (0 < n → Baidu.get_top_n ⟨Baidu.EmbeddedState.malformed, cards⟩ n =
      Except.ok ((Baidu.parse_from_html cards).take n)) ∧
    (Baidu.parse_from_initial_state doc = Except.ok none →
      Baidu.parse_from_html doc.cards = [] →
      Baidu.get_top_n doc n = Except.ok []) := by
  refine ⟨rfl, rfl, ?_, ?_, ?_⟩
  · intro hn
    simp [Baidu.get_top_n, Baidu.parse_from_initial_state, hn]
  · intro hn
    simp [Baidu.get_top_n, Baidu.parse_from_initial_state, hn]
  · intro h1 h2
    unfold Baidu.get_top_n
    rw [h1]
    simp [h2]

/-- Witness for C9: a concrete unparseable document yields the empty
sequence. -/
theorem extractor_error_containment_witness :
    Baidu.get_top_n ⟨Baidu.EmbeddedState.absent, []⟩ 1 = Except.ok [] :=
  (extractor_error_containment [] 1 ⟨Baidu.EmbeddedState.absent, []⟩).2.2.2.2
    rfl rfl

/-! ### C6 -/

theorem rankKey_none {it : Douban.MovieItem} (h : it.rank_no = none) :
    Douban.rankKey it = 9999 := by
  simp [Douban.rankKey, h]

/-- C6: the deduplicated output of `crawl_top_n` is sorted ascending by
rank key, items with a missing declared rank carry the sentinel 9999 (so
that nothing after a missing-rank item has a key below the sentinel — they
sort last, not first), and the output has at most `n` items. -/
theorem crawl_top_n_sorted_bounded (items : List Douban.MovieItem) (n : Nat) :
    List.Sorted (fun a b => Douban.rankKey a ≤ Douban.rankKey b)
      (Douban.crawl_top_n items n) ∧
    (Douban.crawl_top_n items n).length ≤ n ∧
    List.Pairwise (fun a b => a.rank_no = none → 9999 ≤ Douban.rankKey b)
      (Douban.crawl_top_n items n) ∧
    (∀ it ∈ Douban.crawl_top_n items n, it.rank_no = none →
      Douban.rankKey it = 9999) := by
  have htrans : ∀ (a b c : Douban.MovieItem),
      (decide (Douban.rankKey a ≤ Douban.rankKey b)) = true →
      (decide (Douban.rankKey b ≤ Douban.rankKey c)) = true →
      (decide (Douban.rankKey a ≤ Douban.rankKey c)) = true := by
    intro a b c hab hbc
    simp only [decide_eq_true_eq] at hab hbc ⊢
    omega
  have htotal : ∀ (a b : Douban.MovieItem),
      ((decide (Douban.rankKey a ≤ Douban.rankKey b)) ||
        (decide (Douban.rankKey b ≤ Douban.rankKey a))) = true := by
    intro a b
    simp only [Bool.or_eq_true, decide_eq_true_eq]
    omega
  have hsorted := List.sorted_mergeSort htrans htotal (Douban.dedupeBatch items)
  have hsorted2 : List.Sorted (fun a b => Douban.rankKey a ≤ Douban.rankKey b)
      (Douban.crawl_top_n items n) := by
    unfold Douban.crawl_top_n
    exact ((hsorted.imp (fun h => of_decide_eq_true h)).sublist
      (List.take_sublist n _))
  refine ⟨hsorted2, ?_, ?_, ?_⟩
  · exact List.length_take_le n _
  · refine hsorted2.imp ?_
    intro a b hab hnone
    rw [rankKey_none hnone] at hab
    exact hab
  · intro it _ hnone
    exact rankKey_none hnone

/-- Witness for C6 at a concrete batch. -/
theorem crawl_top_n_sorted_bounded_witness :
    (Douban.crawl_top_n [] 5).length ≤ 5 :=
  (crawl_top_n_sorted_bounded [] 5).2.1

/-! ### C8 -/

/-- Every item produced by the structured-strategy item loop has a
non-empty title. -/
theorem buildItems_titles : ∀ (raw : List Baidu.JVal) (i : Nat)
    (out : List Baidu.HotItem), Baidu.buildItems i raw = Except.ok out →
    ∀ it ∈ out, ¬ it.title = "" := by
  intro raw
  induction raw with
  | nil =>
    intro i out h it hit
    cases h
    simp at hit
  | cons v rest ih =>
    intro i out h it hit
    cases v with
    | obj kvs =>
      unfold Baidu.buildItems at h
      split at h
      · simp at h
      next title htit =>
        split at h
        · exact ih (i + 1) out h it hit
        next ht =>
          split at h
          next e hrest => simp at h
          next out2 hrest =>
            cases h
            rcases List.mem_cons.mp hit with rfl | hit2
            · simpa using ht
            · exact ih (i + 1) out2 hrest it hit2
    | null => simp [Baidu.buildItems] at h
    | bool b => simp [Baidu.buildItems] at h
    | num m => simp [Baidu.buildItems] at h
    | str s => simp [Baidu.buildItems] at h
    | arr xs => simp [Baidu.buildItems] at h

/-- Every item produced by the HTML-strategy card loop has a non-empty
title. -/
theorem parse_from_html_go_titles : ∀ (cards : List Baidu.HtmlCard)
    (rank : Nat), ∀ it ∈ Baidu.parse_from_html_go rank cards,
    ¬ it.title = "" := by
  intro cards
  induction cards with
  | nil =>
    intro rank it hit
    simp [Baidu.parse_from_html_go] at hit
  | cons c rest ih =>
    intro rank it hit
    unfold Baidu.parse_from_html_go at hit
    by_cases ht : pyStrip (match c.titleText with | some s => s | none => "") = ""
    · rw [if_pos ht] at hit
      exact ih rank it hit
    · rw [if_neg ht] at hit
      rcases List.mem_cons.mp hit with rfl | hit2
      · simpa using ht
      · exact ih (rank + 1) it hit2

/-- C8 (amended): every candidate item in the output of the two Baidu
extraction strategies (`parse_from_initial_state`, `parse_from_html`) has a
non-empty title — entries whose extracted title is empty are dropped.  The
Douban `parse_list` does not share this postcondition: it only skips cards
without a title anchor (see the counterexample). -/
theorem baidu_parsers_nonempty_title :
    (∀ (doc : Baidu.Document) (items : List Baidu.HotItem),
        Baidu.parse_from_initial_state doc = Except.ok (some items) →
        ∀ it ∈ items, ¬ it.title = "") ∧
    (∀ (cards : List Baidu.HtmlCard), ∀ it ∈ Baidu.parse_from_html cards,
        ¬ it.title = "") := by
  constructor
  · intro doc items h it hit
    obtain ⟨st, cards⟩ := doc
    cases st with
    | absent => simp [Baidu.parse_from_initial_state] at h
    | malformed => simp [Baidu.parse_from_initial_state] at h
    | parsed data =>
      replace h : (match Baidu.dig data with
          | none => Except.ok none
          | some raw =>
            if raw.isEmpty = true then Except.ok none
            else
              match Baidu.buildItems 1 raw with
              | Except.error e => Except.error e
              | Except.ok items => Except.ok (some items)) =
          Except.ok (some items) := h
      split at h
      · simp at h
      next raw hdig =>
        split at h
        · simp at h
        next hne =>
          split at h
          next e hb => simp at h
          next its hb =>
            simp only [Except.ok.injEq, Option.some.injEq] at h
            subst h
            exact buildItems_titles raw 1 its hb it hit
  · intro cards it hit
    exact parse_from_html_go_titles cards 1 it hit

/-- C8 counterexample: a Douban card whose `div.hd a` anchor has empty
text and which has no `span.title` yields an item with an empty title —
`parse_list` does not drop it. -/
theorem parse_list_empty_title_counterexample :
    ∃ it ∈ Douban.parse_list
      [⟨none, some ("https://example.org/", ""), [], none, none, none, none⟩],
      it.title = "" := by
  refine ⟨{ rank_no := none, douban_id := none, title := "",
            original_title := none, year := none, rating := none,
            votes := none, director := some "", countries := [], genres := [],
            url := "https://example.org/" }, ?_, rfl⟩
  simp [Douban.parse_list, Douban.parseCard, pySplitOn, splitOnAux,
    Douban.directorOf, Douban.findDirectorGroup, Douban.collapseWs,
    Douban.collapseWsGo, pyStrip, Douban.findSubjectId]

/-- Witness for the amended C8 at a concrete document. -/
theorem baidu_parsers_nonempty_title_witness :
    ∀ it ∈ Baidu.parse_from_html
      [⟨some "hello", none⟩, ⟨some "", none⟩], ¬ it.title = "" :=
  baidu_parsers_nonempty_title.2 [⟨some "hello", none⟩, ⟨some "", none⟩]

/-! ### C7 -/

mutual

/-- A list returned by `dig` is always the value of an `"items"` key of
some dictionary in the tree. -/
theorem dig_sound : ∀ (t : Baidu.JVal) (xs : List Baidu.JVal),
    Baidu.dig t = some xs → Baidu.ItemsEntry t xs
  | Baidu.JVal.obj kvs, xs, h => by
    simp only [Baidu.dig] at h
    split at h
    next ys hl =>
      cases h
      exact Baidu.ItemsEntry.here kvs xs hl
    next =>
      obtain ⟨k, v, hmem, hent⟩ := digVals_sound kvs xs h
      exact Baidu.ItemsEntry.objChild kvs k v xs hmem hent
  | Baidu.JVal.arr ys, xs, h => by
    simp only [Baidu.dig] at h
    obtain ⟨v, hmem, hent⟩ := digElems_sound ys xs h
    exact Baidu.ItemsEntry.arrChild ys v xs hmem hent
  | Baidu.JVal.null, xs, h => by simp [Baidu.dig] at h
  | Baidu.JVal.bool b, xs, h => by simp [Baidu.dig] at h
  | Baidu.JVal.num m, xs, h => by simp [Baidu.dig] at h
  | Baidu.JVal.str s, xs, h => by simp [Baidu.dig] at h

theorem digVals_sound : ∀ (kvs : List (String × Baidu.JVal))
    (xs : List Baidu.JVal), Baidu.digVals kvs = some xs →
    ∃ k v, (k, v) ∈ kvs ∧ Baidu.ItemsEntry v xs
  | [], xs, h => by simp [Baidu.digVals] at h
  | (k, v) :: rest, xs, h => by
    simp only [Baidu.digVals] at h
    split at h
    next r hr =>
      cases h
      exact ⟨k, v, List.mem_cons_self _ _, dig_sound v xs hr⟩
    next =>
      obtain ⟨k2, v2, hmem, hent⟩ := digVals_sound rest xs h
      exact ⟨k2, v2, List.mem_cons_of_mem _ hmem, hent⟩

theorem digElems_sound : ∀ (ys : List Baidu.JVal) (xs : List Baidu.JVal),
    Baidu.digElems ys = some xs → ∃ v ∈ ys, Baidu.ItemsEntry v xs
  | [], xs, h => by simp [Baidu.digElems] at h
  | v :: rest, xs, h => by
    simp only [Baidu.digElems] at h
    split at h
    next r hr =>
      cases h
      exact ⟨v, List.mem_cons_self _ _, dig_sound v xs hr⟩
    next =>
      obtain ⟨v2, hmem, hent⟩ := digElems_sound rest xs h
      exact ⟨v2, List.mem_cons_of_mem _ hmem, hent⟩

end

/-- If some value of the dict can produce an items list, so can the dict's
value loop. -/
theorem digVals_isSome_of_mem : ∀ (kvs : List (String × Baidu.JVal))
    (k : String) (v : Baidu.JVal), (k, v) ∈ kvs → (Baidu.dig v).isSome →
    (Baidu.digVals kvs).isSome := by
  intro kvs
  induction kvs with
  | nil =>
    intro k v hmem _
    exact absurd hmem (List.not_mem_nil _)
  | cons kv rest ih =>
    intro k v hmem hv
    simp only [Baidu.digVals]
    split
    · simp
    next hnone =>
      rcases List.mem_cons.mp hmem with heq | hmem2
      · exfalso
        have hv0 : kv.2 = v := by rw [← heq]
        rw [← hv0, hnone] at hv
        simp at hv
      · exact ih k v hmem2 hv

/-- If some element of the array can produce an items list, so can the
array's element loop. -/
theorem digElems_isSome_of_mem : ∀ (ys : List Baidu.JVal) (v : Baidu.JVal),
    v ∈ ys → (Baidu.dig v).isSome → (Baidu.digElems ys).isSome := by
  intro ys
  induction ys with
  | nil =>
    intro v hmem _
    exact absurd hmem (List.not_mem_nil _)
  | cons w rest ih =>
    intro v hmem hv
    simp only [Baidu.digElems]
    split
    · simp
    next hnone =>
      rcases List.mem_cons.mp hmem with heq | hmem2
      · exfalso
        rw [heq, hnone] at hv
        simp at hv
      · exact ih v hmem2 hv

/-- Any tree with a list-valued `"items"` entry somewhere makes `dig`
succeed. -/
theorem dig_isSome_of_entry (t : Baidu.JVal) (xs : List Baidu.JVal)
    (h : Baidu.ItemsEntry t xs) : (Baidu.dig t).isSome := by
  induction h with
  | here kvs ys hl =>
    simp only [Baidu.dig]
    split
    · simp
    next hno => exact absurd hl (by simpa using hno ys)
  | objChild kvs k v ys hmem _ ih =>
    simp only [Baidu.dig]
    split
    · simp
    next => exact digVals_isSome_of_mem kvs k v hmem ih
  | arrChild ys v zs hmem _ ih =>
    simp only [Baidu.dig]
    exact digElems_isSome_of_mem ys v hmem ih

/-- C7 (amended): `dig` returns a list exactly when the tree holds a
list-valued `"items"` key in some dictionary, and what it returns is always
such an entry; at a dictionary the own `"items"` key is consulted before
the values.  In particular a tree with arrays but no `"items"` key yields
nothing — there is no first-array-by-depth-first-search fallback. -/
theorem dig_items_characterization :
    (∀ (t : Baidu.JVal) (xs : List Baidu.JVal),
        Baidu.dig t = some xs → Baidu.ItemsEntry t xs) ∧
    (∀ t : Baidu.JVal, (Baidu.dig t).isSome ↔ ∃ xs, Baidu.ItemsEntry t xs) ∧
    (∀ (kvs : List (String × Baidu.JVal)) (xs : List Baidu.JVal),
        Baidu.jLookup kvs "items" = some (Baidu.JVal.arr xs) →
        Baidu.dig (Baidu.JVal.obj kvs) = some xs) := by
  refine ⟨dig_sound, ?_, ?_⟩
  · intro t
    constructor
    · intro hs
      obtain ⟨xs, hxs⟩ := Option.isSome_iff_exists.mp hs
      exact ⟨xs, dig_sound t xs hxs⟩
    · intro ⟨xs, hent⟩
      exact dig_isSome_of_entry t xs hent
  · intro kvs xs hl
    simp only [Baidu.dig]
    split
    next ys hl2 =>
      rw [hl] at hl2
      cases hl2
      rfl
    next hno => exact absurd hl (by simpa using hno xs)

/-- C7 counterexample: a tree containing an array but no `"items"` key —
the claim's fallback would return the array `[1]`, but `dig` returns
nothing and the structured strategy reports no result. -/
theorem dig_no_array_fallback_counterexample :
    Baidu.dig (Baidu.JVal.obj [("a", Baidu.JVal.arr [Baidu.JVal.num 1])]) =
      none ∧
    Baidu.parse_from_initial_state
      ⟨Baidu.EmbeddedState.parsed
        (Baidu.JVal.obj [("a", Baidu.JVal.arr [Baidu.JVal.num 1])]), []⟩ =
      Except.ok none := ⟨rfl, rfl⟩

/-- Witness for the amended C7 at a concrete tree. -/
theorem dig_items_characterization_witness :
    Baidu.dig (Baidu.JVal.obj [("items", Baidu.JVal.arr [Baidu.JVal.num 2])]) =
      some [Baidu.JVal.num 2] :=
  dig_items_characterization.2.2 [("items", Baidu.JVal.arr [Baidu.JVal.num 2])]
    [Baidu.JVal.num 2] rfl

/-! ### C3 -/

/-- A list that is duplicate-free and has a unique element satisfying the
predicate filters to exactly that element. -/
theorem filter_eq_singleton_of_unique {α : Type} (p : α → Bool) :
    ∀ (l : List α), l.Nodup → ∀ x ∈ l, p x = true →
      (∀ y ∈ l, p y = true → y = x) → l.filter p = [x] := by
  intro l
  induction l with
  | nil => intro _ x hx; exact absurd hx (List.not_mem_nil x)
  | cons a l ih =>
    intro hnd x hx hpx huniq
    rw [List.nodup_cons] at hnd
    rcases List.mem_cons.mp hx with rfl | hx2
    · have hl : l.filter p = [] := by
        apply filter_eq_nil_of_all
        intro b hb
        rcases Bool.eq_false_or_eq_true (p b) with ht | hf
        · exact absurd (huniq b (List.mem_cons_of_mem _ hb) ht ▸ hb) hnd.1
        · exact hf
      rw [List.filter_cons, hpx]
      simp [hl]
    · have hpa : p a = false := by
        rcases Bool.eq_false_or_eq_true (p a) with ht | hf
        · exact absurd ((huniq a (List.mem_cons_self a l) ht) ▸ hx2) hnd.1
        · exact hf
      rw [List.filter_cons, hpa]
      simp only [Bool.false_eq_true, if_false]
      exact ih hnd.2 x hx2 hpx (fun y hy hpy =>
        huniq y (List.mem_cons_of_mem a hy) hpy)

/-- Membership in the reconciler's loser-id query result. -/
theorem mem_dupIds (t : List UsersDemo.UserRow) (i : Nat) :
    i ∈ UsersDemo.dupIds t ↔
      ∃ r ∈ t, r.id = i ∧ ∃ r2 ∈ t, r2.email = r.email ∧ r2.id < r.id := by
  unfold UsersDemo.dupIds
  rw [List.mem_dedup, List.mem_map]
  constructor
  · rintro ⟨r, hrf, hid⟩
    rw [List.mem_filter] at hrf
    obtain ⟨hrt, hcond⟩ := hrf
    rw [List.any_eq_true] at hcond
    obtain ⟨r2, hr2, hc⟩ := hcond
    simp only [Bool.and_eq_true, decide_eq_true_eq] at hc
    exact ⟨r, hrt, hid, r2, hr2, hc.1.symm, hc.2⟩
  · rintro ⟨r, hrt, hid, r2, hr2, hem, hlt⟩
    refine ⟨r, List.mem_filter.mpr ⟨hrt, ?_⟩, hid⟩
    rw [List.any_eq_true]
    exact ⟨r2, hr2, by simp [hem.symm, hlt]⟩

/-- Sequential chunked deletion equals one-shot deletion of the id list,
and the accumulated affected-row count is the number of deleted rows. -/
theorem deleteChunks_eq (ids : List Nat) (t : List UsersDemo.UserRow) :
    UsersDemo.deleteChunks t ids =
      (t.length - (UsersDemo.deleteIds t ids).length,
       UsersDemo.deleteIds t ids) := by
  rw [UsersDemo.deleteChunks]
  split
  next h =>
    subst h
    simp [UsersDemo.deleteIds]
  next h =>
    show (t.length - (UsersDemo.deleteIds t (ids.take 500)).length +
        (UsersDemo.deleteChunks (UsersDemo.deleteIds t (ids.take 500))
          (ids.drop 500)).1,
      (UsersDemo.deleteChunks (UsersDemo.deleteIds t (ids.take 500))
        (ids.drop 500)).2) = _
    rw [deleteChunks_eq (ids.drop 500) (UsersDemo.deleteIds t (ids.take 500))]
    have hjoin : UsersDemo.deleteIds (UsersDemo.deleteIds t (ids.take 500))
        (ids.drop 500) = UsersDemo.deleteIds t ids := by
      unfold UsersDemo.deleteIds
      rw [List.filter_filter]
      apply List.filter_congr
      intro r _
      rw [Bool.eq_iff_iff]
      simp only [Bool.and_eq_true, decide_eq_true_eq]
      have hsplit : r.id ∈ ids ↔ r.id ∈ ids.take 500 ∨ r.id ∈ ids.drop 500 := by
        rw [← List.mem_append, List.take_append_drop]
      constructor
      · rintro ⟨h1, h2⟩
        intro hmem
        rcases hsplit.mp hmem with hm | hm
        · first
          | exact h1 hm
          | exact h2 hm
        · first
          | exact h1 hm
          | exact h2 hm
      · intro hni
        constructor
        · intro hm
          apply hni
          apply hsplit.mpr
          first
          | exact Or.inl hm
          | exact Or.inr hm
        · intro hm
          apply hni
          apply hsplit.mpr
          first
          | exact Or.inl hm
          | exact Or.inr hm
    rw [hjoin]
    have h1 : (UsersDemo.deleteIds t ids).length ≤
        (UsersDemo.deleteIds t (ids.take 500)).length := by
      rw [← hjoin]
      exact List.length_filter_le _ _
    have h2 : (UsersDemo.deleteIds t (ids.take 500)).length ≤ t.length :=
      List.length_filter_le _ _
    simp only [Prod.mk.injEq]
    exact ⟨by omega, trivial⟩
termination_by ids.length
decreasing_by
  rename_i h2
  simp only [List.length_drop]
  have hp := List.length_pos.mpr h2
  omega

/-- The reconciled table is the one-shot deletion of the loser ids, and the
removed count is the number of rows deleted. -/
theorem cmd_dedupe_rows (t : List UsersDemo.UserRow) :
    UsersDemo.cmd_dedupe t =
      (t.length - (UsersDemo.deleteIds t (UsersDemo.dupIds t)).length,
       UsersDemo.deleteIds t (UsersDemo.dupIds t)) := by
  unfold UsersDemo.cmd_dedupe
  dsimp only
  by_cases h : UsersDemo.dupIds t = []
  · rw [if_pos h, h]
    simp [UsersDemo.deleteIds]
  · rw [if_neg h]
    exact deleteChunks_eq _ _

/-- A row survives reconciliation exactly when no same-email row with a
strictly smaller id exists (under the primary-key invariant). -/
theorem mem_cmd_dedupe (t : List UsersDemo.UserRow)
    (hnodup : (t.map (fun r => r.id)).Nodup) (r : UsersDemo.UserRow) :
    r ∈ (UsersDemo.cmd_dedupe t).2 ↔
      r ∈ t ∧ ∀ r2 ∈ t, r2.email = r.email → r.id ≤ r2.id := by
  rw [cmd_dedupe_rows]
  simp only [UsersDemo.deleteIds, List.mem_filter, decide_eq_true_eq]
  constructor
  · rintro ⟨hrt, hni⟩
    refine ⟨hrt, ?_⟩
    intro r2 hr2 hem
    by_contra hlt
    exact hni ((mem_dupIds t r.id).mpr ⟨r, hrt, rfl, r2, hr2, hem, by omega⟩)
  · rintro ⟨hrt, hmin⟩
    refine ⟨hrt, ?_⟩
    intro hmem
    obtain ⟨r', hr't, hid, r2, hr2, hem, hlt⟩ := (mem_dupIds t r.id).mp hmem
    have hrr : r' = r :=
      List.inj_on_of_nodup_map hnodup hr't hrt hid
    subst hrr
    have := hmin r2 hr2 hem
    omega

/-- C3: on a table whose surrogate ids are pairwise distinct, one
reconciliation run leaves, for every natural key `K`, exactly the key-`K`
row with the smallest id; every removed row had a same-key row with a
smaller id; and a second run finds zero losers and removes nothing. -/
theorem cmd_dedupe_reconciles (t : List UsersDemo.UserRow)
    (hnodup : (t.map (fun r => r.id)).Nodup) :
    (∀ (K : String), ∀ rmin ∈ t, rmin.email = K →
      (∀ r2 ∈ t, r2.email = K → rmin.id ≤ r2.id) →
      (UsersDemo.cmd_dedupe t).2.filter (fun r => decide (r.email = K)) =
        [rmin]) ∧
    (∀ r ∈ t, r ∉ (UsersDemo.cmd_dedupe t).2 →
      ∃ r2 ∈ t, r2.email = r.email ∧ r2.id < r.id) ∧
    UsersDemo.cmd_dedupe (UsersDemo.cmd_dedupe t).2 =
      (0, (UsersDemo.cmd_dedupe t).2) := by
  have hnd : t.Nodup := List.Nodup.of_map _ hnodup
  have hsub : ∀ r, r ∈ (UsersDemo.cmd_dedupe t).2 → r ∈ t := by
    intro r hr
    exact ((mem_cmd_dedupe t hnodup r).mp hr).1
  have hnd' : (UsersDemo.cmd_dedupe t).2.Nodup := by
    rw [cmd_dedupe_rows]
    exact List.Nodup.filter _ hnd
  refine ⟨?_, ?_, ?_⟩
  · intro K rmin hmem hK hmin
    apply filter_eq_singleton_of_unique _ _ hnd'
    · rw [mem_cmd_dedupe t hnodup]
      refine ⟨hmem, ?_⟩
      intro r2 hr2 hem
      exact hmin r2 hr2 (by rw [hem, hK])
    · simp [hK]
    · intro y hy hpy
      simp only [decide_eq_true_eq] at hpy
      obtain ⟨hyt, hymin⟩ := (mem_cmd_dedupe t hnodup y).mp hy
      have h1 : y.id ≤ rmin.id := hymin rmin hmem (by rw [hK, hpy])
      have h2 : rmin.id ≤ y.id := hmin y hyt hpy
      exact List.inj_on_of_nodup_map hnodup hyt hmem (by omega)
  · intro r hrt hrd
    by_contra hno
    push_neg at hno
    apply hrd
    rw [mem_cmd_dedupe t hnodup]
    refine ⟨hrt, ?_⟩
    intro r2 hr2 hem
    by_contra hlt
    exact absurd (by omega : r2.id < r.id) (by
      intro h
      exact absurd h (by
        have := hno r2 hr2 hem
        omega))
  · have hids : UsersDemo.dupIds (UsersDemo.cmd_dedupe t).2 = [] := by
      rw [List.eq_nil_iff_forall_not_mem]
      intro i hi
      obtain ⟨r, hrt', hid, r2, hr2', hem, hlt⟩ :=
        (mem_dupIds _ i).mp hi
      obtain ⟨hrt, hrmin⟩ := (mem_cmd_dedupe t hnodup r).mp hrt'
      have hr2t : r2 ∈ t := hsub r2 hr2'
      have := hrmin r2 hr2t hem
      omega
    rw [cmd_dedupe_rows ((UsersDemo.cmd_dedupe t).2), hids]
    have hdel : UsersDemo.deleteIds (UsersDemo.cmd_dedupe t).2 [] =
        (UsersDemo.cmd_dedupe t).2 := by
      simp [UsersDemo.deleteIds]
    rw [hdel]
    simp

/-- Witness for C3: three rows sharing the email natural key with ids
1 < 2 < 3; the reconciler leaves only id 1 for that key. -/
theorem cmd_dedupe_reconciles_witness :
    (UsersDemo.cmd_dedupe
      [⟨1, "a", "x@x"⟩, ⟨2, "b", "x@x"⟩, ⟨3, "c", "x@x"⟩]).2.filter
        (fun r => decide (r.email = "x@x")) = [⟨1, "a", "x@x"⟩] :=
  (cmd_dedupe_reconciles
    [⟨1, "a", "x@x"⟩, ⟨2, "b", "x@x"⟩, ⟨3, "c", "x@x"⟩] (by decide)).1
    "x@x" ⟨1, "a", "x@x"⟩ (List.mem_cons_self _ _) rfl
    (by
      intro r2 hr2 _
      simp only [List.mem_cons, List.not_mem_nil, or_false] at hr2
      rcases hr2 with rfl | rfl | rfl <;> simp)


/-- Filtering for key `k` after a key-preserving update of the key-`k` rows
is the update of the filtered rows. -/
theorem filter_if_map (l : List Douban.MovieRow) (k : String)
    (f : Douban.MovieRow → Douban.MovieRow)
    (hf : ∀ r, (f r).douban_id = r.douban_id) :
    (l.map (fun r => if r.douban_id = k then f r else r)).filter
        (fun r => decide (r.douban_id = k)) =
      (l.filter (fun r => decide (r.douban_id = k))).map f := by
  induction l with
  | nil => simp
  | cons a l ih =>
    by_cases ha : a.douban_id = k <;>
      simp [List.filter_cons, hf, ha, ih]

/-- A key-preserving update of the key-`k` rows leaves the key column
unchanged. -/
theorem map_key_if_update (l : List Douban.MovieRow) (k : String)
    (f : Douban.MovieRow → Douban.MovieRow)
    (hf : ∀ r, (f r).douban_id = r.douban_id) :
    ((l.map (fun r => if r.douban_id = k then f r else r)).map
        (fun r => r.douban_id)) = l.map (fun r => r.douban_id) := by
  rw [List.map_map]
  apply List.map_congr_left
  intro r _
  by_cases hr : r.douban_id = k
  · simp [hr, hf]
  · simp [hr]

/-- The effect of `upsert_movie` when no row carries the natural key: a
fresh row is appended and the fresh surrogate id returned. -/
theorem upsert_movie_fresh (db : Douban.MoviesTable) (m : Douban.MovieItem)
    (k : String) (rk now : Nat) (hk : m.douban_id = some k)
    (hr : m.rank_no = some rk)
    (hany : db.rows.any (fun r => decide (r.douban_id = k)) = false) :
    Douban.upsert_movie db m now = Except.ok (db.next_id,
      ⟨db.rows ++ [⟨db.next_id, k, rk, m.title, m.original_title, m.year,
        m.rating, m.votes, m.director, some m.url, now⟩], db.next_id + 1⟩) := by
  have hfil : db.rows.filter (fun r => decide (r.douban_id = k)) = [] := by
    apply filter_eq_nil_of_all
    intro r hr2
    have hmem := (List.any_eq_false.mp hany) r hr2
    simpa using hmem
  unfold Douban.upsert_movie
  rw [hk, hr]
  simp only [hany, Bool.false_eq_true, if_false, List.filter_append, hfil,
    List.nil_append, List.filter_cons, List.filter_nil]
  simp

/-- The effect of `upsert_movie` when a (unique) row already carries the
natural key: that row's mutable attributes are overwritten in place and its
existing surrogate id returned. -/
theorem upsert_movie_existing (db : Douban.MoviesTable) (m : Douban.MovieItem)
    (k : String) (rk now : Nat) (r0 : Douban.MovieRow)
    (hnodup : (db.rows.map (fun r => r.douban_id)).Nodup)
    (hk : m.douban_id = some k) (hr : m.rank_no = some rk)
    (hr0 : r0 ∈ db.rows) (hk0 : r0.douban_id = k) :
    Douban.upsert_movie db m now = Except.ok (r0.id,
      { db with rows := db.rows.map (fun r =>
          if r.douban_id = k then Douban.updateMovieRow r m rk now else r) }) ∧
    (db.rows.map (fun r =>
        if r.douban_id = k then Douban.updateMovieRow r m rk now else r)).filter
        (fun r => decide (r.douban_id = k)) =
      [Douban.updateMovieRow r0 m rk now] := by
  have hany : db.rows.any (fun r => decide (r.douban_id = k)) = true :=
    List.any_eq_true.mpr ⟨r0, hr0, by simp [hk0]⟩
  have hfil : db.rows.filter (fun r => decide (r.douban_id = k)) = [r0] :=
    filter_key_eq_singleton (fun r => r.douban_id) db.rows r0 k hnodup hr0 hk0
  have hmapped : (db.rows.map (fun r =>
      if r.douban_id = k then Douban.updateMovieRow r m rk now else r)).filter
      (fun r => decide (r.douban_id = k)) =
      [Douban.updateMovieRow r0 m rk now] := by
    rw [filter_if_map db.rows k (fun r => Douban.updateMovieRow r m rk now)
      (fun r => rfl), hfil]
    simp
  refine ⟨?_, hmapped⟩
  unfold Douban.upsert_movie
  rw [hk, hr]
  simp only [hany, if_true, hmapped]
  rfl

/-- C1: two sequential upserts with the same natural key `k` and differing
attribute values leave exactly one persisted row for `k`; that row's
mutable attributes (rank, title, original title, year, rating, votes,
director, url, freshness timestamp) equal the second call's values, and
both calls return the identical surrogate id. -/
theorem upsert_movie_convergence (db : Douban.MoviesTable)
    (m1 m2 : Douban.MovieItem) (k : String) (rk1 rk2 n1 n2 : Nat)
    (hnodup : (db.rows.map (fun r => r.douban_id)).Nodup)
    (h1 : m1.douban_id = some k) (h2 : m2.douban_id = some k)
    (hr1 : m1.rank_no = some rk1) (hr2 : m2.rank_no = some rk2) :
    ∃ i db1 db2,
      Douban.upsert_movie db m1 n1 = Except.ok (i, db1) ∧
      Douban.upsert_movie db1 m2 n2 = Except.ok (i, db2) ∧
      db2.rows.filter (fun r => decide (r.douban_id = k)) =
        [{ id := i, douban_id := k, rank_no := rk2, title := m2.title,
           original_title := m2.original_title, year := m2.year,
           rating := m2.rating, votes := m2.votes, director := m2.director,
           url := some m2.url, grabbed_at := n2 }] := by
  by_cases hany : db.rows.any (fun r => decide (r.douban_id = k)) = true
  · obtain ⟨r0, hr0, hk0⟩ := List.any_eq_true.mp hany
    have hk0' : r0.douban_id = k := by simpa using hk0
    obtain ⟨hcall1, hfil1⟩ :=
      upsert_movie_existing db m1 k rk1 n1 r0 hnodup h1 hr1 hr0 hk0'
    set db1 : Douban.MoviesTable :=
      { db with rows := db.rows.map (fun r =>
          if r.douban_id = k then Douban.updateMovieRow r m1 rk1 n1 else r) }
      with hdb1
    have hnodup1 : (db1.rows.map (fun r => r.douban_id)).Nodup := by
      show ((db.rows.map (fun r =>
        if r.douban_id = k then Douban.updateMovieRow r m1 rk1 n1 else r)).map
          (fun r => r.douban_id)).Nodup
      rw [map_key_if_update db.rows k
        (fun r => Douban.updateMovieRow r m1 rk1 n1) (fun r => rfl)]
      exact hnodup
    have hmem1 : Douban.updateMovieRow r0 m1 rk1 n1 ∈ db1.rows := by
      have hx : Douban.updateMovieRow r0 m1 rk1 n1 ∈
          (db.rows.map (fun r =>
            if r.douban_id = k then Douban.updateMovieRow r m1 rk1 n1
            else r)).filter (fun r => decide (r.douban_id = k)) := by
        rw [hfil1]
        exact List.mem_singleton_self _
      exact List.mem_of_mem_filter hx
    have hkey1 : (Douban.updateMovieRow r0 m1 rk1 n1).douban_id = k := hk0'
    obtain ⟨hcall2, hfil2⟩ :=
      upsert_movie_existing db1 m2 k rk2 n2 (Douban.updateMovieRow r0 m1 rk1 n1)
        hnodup1 h2 hr2 hmem1 hkey1
    refine ⟨r0.id, db1,
      { db1 with rows := db1.rows.map (fun r =>
          if r.douban_id = k then Douban.updateMovieRow r m2 rk2 n2 else r) },
      hcall1, ?_, ?_⟩
    · rw [hcall2]
      rfl
    · show ((db1.rows.map (fun r =>
          if r.douban_id = k then Douban.updateMovieRow r m2 rk2 n2
          else r)).filter (fun r => decide (r.douban_id = k))) = _
      rw [hfil2]
      obtain ⟨id0, did0, rn0, t0, o0, y0, ra0, v0, d0, u0, g0⟩ := r0
      simp only at hk0'
      subst hk0'
      simp [Douban.updateMovieRow]
  · have hany' : db.rows.any (fun r => decide (r.douban_id = k)) = false := by
      simpa using hany
    have hcall1 := upsert_movie_fresh db m1 k rk1 n1 h1 hr1 hany'
    set newRow : Douban.MovieRow :=
      ⟨db.next_id, k, rk1, m1.title, m1.original_title, m1.year, m1.rating,
        m1.votes, m1.director, some m1.url, n1⟩ with hnew
    set db1 : Douban.MoviesTable :=
      ⟨db.rows ++ [newRow], db.next_id + 1⟩ with hdb1
    have hnodup1 : (db1.rows.map (fun r => r.douban_id)).Nodup := by
      rw [hdb1]
      simp only [List.map_append]
      rw [List.nodup_append]
      refine ⟨hnodup, by simp [hnew], ?_⟩
      intro x hx
      simp only [hnew, List.map_cons, List.map_nil, List.mem_singleton]
      intro hxk
      obtain ⟨r, hr, hrk⟩ := List.mem_map.mp hx
      have := (List.any_eq_false.mp hany') r hr
      simp only [decide_eq_true_eq] at this
      exact this (by rw [hrk, hxk])
    have hmem1 : newRow ∈ db1.rows := by
      rw [hdb1]
      simp
    have hkey1 : newRow.douban_id = k := by rw [hnew]
    obtain ⟨hcall2, hfil2⟩ :=
      upsert_movie_existing db1 m2 k rk2 n2 newRow hnodup1 h2 hr2 hmem1 hkey1
    refine ⟨db.next_id, db1,
      { db1 with rows := db1.rows.map (fun r =>
          if r.douban_id = k then Douban.updateMovieRow r m2 rk2 n2 else r) },
      ?_, ?_, ?_⟩
    · rw [hcall1, hdb1, hnew]
    · have hid : newRow.id = db.next_id := by rw [hnew]
      rw [hcall2, hid]
    · simp only [hfil2]
      simp [hnew, Douban.updateMovieRow]

/-- Witness for C1 at concrete inputs: natural key "42", attributes
(title "X", year 2001) then (title "X2", year 2002). -/
theorem upsert_movie_convergence_witness :
    ∃ i db1 db2,
      Douban.upsert_movie ⟨[], 1⟩
        { rank_no := some 1, douban_id := some "42", title := "X",
          original_title := none, year := some 2001, rating := none,
          votes := none, director := none, countries := [], genres := [],
          url := "u1" } 10 = Except.ok (i, db1) ∧
      Douban.upsert_movie db1
        { rank_no := some 2, douban_id := some "42", title := "X2",
          original_title := none, year := some 2002, rating := none,
          votes := none, director := none, countries := [], genres := [],
          url := "u2" } 11 = Except.ok (i, db2) ∧
      db2.rows.filter (fun r => decide (r.douban_id = "42")) =
        [{ id := 1, douban_id := "42", rank_no := 2, title := "X2",
           original_title := none, year := some 2002, rating := none,
           votes := none, director := none, url := some "u2",
           grabbed_at := 11 }] := by
  have h := upsert_movie_convergence ⟨[], 1⟩
    { rank_no := some 1, douban_id := some "42", title := "X",
      original_title := none, year := some 2001, rating := none,
      votes := none, director := none, countries := [], genres := [],
      url := "u1" }
    { rank_no := some 2, douban_id := some "42", title := "X2",
      original_title := none, year := some 2002, rating := none,
      votes := none, director := none, countries := [], genres := [],
      url := "u2" } "42" 1 2 10 11 (by simp) rfl rfl rfl rfl
  obtain ⟨i, db1, db2, hc1, hc2, hfil⟩ := h
  have hi : i = 1 := by
    have : Douban.upsert_movie ⟨[], 1⟩
        { rank_no := some 1, douban_id := some "42", title := "X",
          original_title := none, year := some 2001, rating := none,
          votes := none, director := none, countries := [], genres := [],
          url := "u1" } 10 = Except.ok (1,
          ⟨[⟨1, "42", 1, "X", none, some 2001, none, none, none, some "u1",
            10⟩], 2⟩) := rfl
    rw [this] at hc1
    exact (Prod.mk.injEq _ _ _ _).mp (Except.ok.inj hc1) |>.1.symm
  exact ⟨i, db1, db2, hc1, hc2, by rw [← hi]; exact hfil⟩


/-! ### C2 -/

theorem pairCount_append (a b : List (Nat × Nat)) (q : Nat × Nat) :
    Douban.pairCount (a ++ b) q =
      Douban.pairCount a q + Douban.pairCount b q := by
  unfold Douban.pairCount
  rw [List.filter_append, List.length_append]

theorem pairCount_eq_zero (assoc : List (Nat × Nat)) (q : Nat × Nat)
    (h : q ∉ assoc) : Douban.pairCount assoc q = 0 := by
  unfold Douban.pairCount
  rw [List.length_eq_zero]
  apply filter_eq_nil_of_all
  intro x hx
  simp only [decide_eq_false_iff_not]
  intro he
  exact h (he ▸ hx)

theorem pairCount_singleton_self (q : Nat × Nat) :
    Douban.pairCount [q] q = 1 := by
  simp [Douban.pairCount]

theorem insertIgnore_shape (assoc : List (Nat × Nat)) (m d : Nat) :
    Douban.insertIgnore assoc m d = assoc ∨
    Douban.insertIgnore assoc m d = assoc ++ [(m, d)] := by
  unfold Douban.insertIgnore
  split
  · exact Or.inl rfl
  · exact Or.inr rfl

theorem mem_insertIgnore (assoc : List (Nat × Nat)) (m d : Nat)
    (q : Nat × Nat) (h : q ∈ Douban.insertIgnore assoc m d) :
    q ∈ assoc ∨ q = (m, d) := by
  rcases insertIgnore_shape assoc m d with hs | hs <;> rw [hs] at h
  · exact Or.inl h
  · rcases List.mem_append.mp h with h2 | h2
    · exact Or.inl h2
    · exact Or.inr (List.mem_singleton.mp h2)

theorem pairCount_insertIgnore_self (assoc : List (Nat × Nat)) (m d : Nat) :
    Douban.pairCount (Douban.insertIgnore assoc m d) (m, d) =
      if (m, d) ∈ assoc then Douban.pairCount assoc (m, d)
      else Douban.pairCount assoc (m, d) + 1 := by
  unfold Douban.insertIgnore
  by_cases h : (m, d) ∈ assoc
  · rw [if_pos h, if_pos h]
  · rw [if_neg h, if_neg h, pairCount_append, pairCount_singleton_self]

theorem pairCount_insertIgnore_ne (assoc : List (Nat × Nat)) (m d : Nat)
    (q : Nat × Nat) (h : q ≠ (m, d)) :
    Douban.pairCount (Douban.insertIgnore assoc m d) q =
      Douban.pairCount assoc q := by
  rcases insertIgnore_shape assoc m d with hs | hs <;> rw [hs]
  rw [pairCount_append]
  have : Douban.pairCount [(m, d)] q = 0 :=
    pairCount_eq_zero _ _ (by simpa using h)
  omega

theorem mem_insertIgnore_of_mem (assoc : List (Nat × Nat)) (m d : Nat)
    (q : Nat × Nat) (h : q ∈ assoc) : q ∈ Douban.insertIgnore assoc m d := by
  rcases insertIgnore_shape assoc m d with hs | hs <;> rw [hs]
  · exact h
  · exact List.mem_append.mpr (Or.inl h)

/-- The dimension upsert either finds the existing row (returning its id
and leaving the table unchanged) or inserts a fresh row under the next
auto-increment id. -/
theorem dimUpsert_cases (dim : Douban.DimTable) (n : String) :
    (∃ i, (i, n) ∈ dim.rows ∧ Douban.dimUpsert dim n = (i, dim)) ∨
    ((∀ p ∈ dim.rows, p.2 ≠ n) ∧ Douban.dimUpsert dim n =
      (dim.next_id, ⟨dim.rows ++ [(dim.next_id, n)], dim.next_id + 1⟩)) := by
  unfold Douban.dimUpsert
  cases hf : dim.rows.find? (fun p => decide (p.2 = n)) with
  | some p =>
    left
    obtain ⟨pi, pn⟩ := p
    have hmem := List.mem_of_find?_eq_some hf
    have hn : pn = n := by simpa using List.find?_some hf
    subst hn
    exact ⟨pi, hmem, rfl⟩
  | none =>
    right
    refine ⟨?_, rfl⟩
    intro p hp
    have := List.find?_eq_none.mp hf p hp
    simpa using this

/-- In a table with unique names, the id of a name is unique. -/
theorem dim_id_of_name (dim : Douban.DimTable) (hinv : Douban.DimInv dim)
    {i i' : Nat} {n : String} (h1 : (i, n) ∈ dim.rows)
    (h2 : (i', n) ∈ dim.rows) : i = i' := by
  have h := List.inj_on_of_nodup_map hinv.1 h1 h2 rfl
  exact (Prod.ext_iff.mp h).1

/-- In a table with unique ids, the name of an id is unique. -/
theorem dim_name_of_id (dim : Douban.DimTable) (hinv : Douban.DimInv dim)
    {i : Nat} {a b : String} (h1 : (i, a) ∈ dim.rows)
    (h2 : (i, b) ∈ dim.rows) : a = b := by
  have h := List.inj_on_of_nodup_map hinv.2.1 h1 h2 rfl
  exact (Prod.ext_iff.mp h).2

theorem cleanNamesGo_nodup : ∀ (l : List String) (seen : List String),
    (Douban.cleanNamesGo seen l).Nodup ∧
      ∀ x ∈ Douban.cleanNamesGo seen l, x ∉ seen := by
  intro l
  induction l with
  | nil => intro seen; simp [Douban.cleanNamesGo]
  | cons a rest ih =>
    intro seen
    unfold Douban.cleanNamesGo
    by_cases h1 : pyStrip a = ""
    · rw [if_pos h1]
      exact ih seen
    · rw [if_neg h1]
      by_cases h2 : pyStrip a ∈ seen
      · rw [if_pos h2]
        exact ih seen
      · rw [if_neg h2]
        obtain ⟨ihn, ihs⟩ := ih (pyStrip a :: seen)
        constructor
        · rw [List.nodup_cons]
          refine ⟨?_, ihn⟩
          intro hmem
          exact ihs _ hmem (List.mem_cons_self _ _)
        · intro x hx
          rcases List.mem_cons.mp hx with rfl | hx2
          · exact h2
          · intro hxs
            exact ihs x hx2 (List.mem_cons_of_mem _ hxs)

theorem cleanNames_nodup (l : List String) : (Douban.cleanNames l).Nodup :=
  (cleanNamesGo_nodup l []).1

theorem pairCount_pos_mem (assoc : List (Nat × Nat)) (q : Nat × Nat)
    (h : Douban.pairCount assoc q ≠ 0) : q ∈ assoc := by
  unfold Douban.pairCount at h
  have hne : assoc.filter (fun x => decide (x = q)) ≠ [] := by
    intro hnil
    rw [hnil] at h
    exact h rfl
  obtain ⟨x, hx⟩ := List.exists_mem_of_ne_nil _ hne
  obtain ⟨hxa, hxq⟩ := List.mem_filter.mp hx
  have : x = q := by simpa using hxq
  exact this ▸ hxa

/-- Appending a fresh name under the next auto-increment id preserves the
dimension-table invariants. -/
theorem dimInsert_inv (dim : Douban.DimTable) (a : String)
    (hinv : Douban.DimInv dim) (hfr : ∀ p ∈ dim.rows, p.2 ≠ a) :
    Douban.DimInv ⟨dim.rows ++ [(dim.next_id, a)], dim.next_id + 1⟩ := by
  refine ⟨?_, ?_, ?_⟩
  · simp only [List.map_append]
    rw [List.nodup_append]
    refine ⟨hinv.1, by simp, ?_⟩
    intro x hx
    simp only [List.map_cons, List.map_nil, List.mem_singleton]
    obtain ⟨p, hp, hpx⟩ := List.mem_map.mp hx
    intro hxa
    exact hfr p hp (by rw [hpx, hxa])
  · simp only [List.map_append]
    rw [List.nodup_append]
    refine ⟨hinv.2.1, by simp, ?_⟩
    intro x hx
    simp only [List.map_cons, List.map_nil, List.mem_singleton]
    obtain ⟨p, hp, hpx⟩ := List.mem_map.mp hx
    intro hxn
    have hlt := hinv.2.2 p hp
    omega
  · intro p hp
    rcases List.mem_append.mp hp with hp2 | hp2
    · have := hinv.2.2 p hp2
      show p.1 < dim.next_id + 1
      omega
    · rw [List.mem_singleton.mp hp2]
      show dim.next_id < dim.next_id + 1
      omega

/-- The association-id bound survives an `INSERT IGNORE` whose dimension id
is itself below the bound. -/
theorem insertIgnore_bound (assoc : List (Nat × Nat)) (m d bound : Nat)
    (hass : ∀ q ∈ assoc, q.2 < bound) (hd : d < bound) :
    ∀ q ∈ Douban.insertIgnore assoc m d, q.2 < bound := by
  intro q hq
  rcases mem_insertIgnore _ _ _ _ hq with hq2 | hq2
  · exact hass q hq2
  · rw [hq2]
    exact hd

/-- Structural facts about one run of the per-name loop: the invariants are
preserved, the auto-increment counter is monotone, dimension rows are only
appended (and only with names absent from the initial rows), and
association rows are only appended (and only for this record id). -/
theorem ensureLoop_inv : ∀ (ns : List String) (mid : Nat)
    (dim : Douban.DimTable) (assoc : List (Nat × Nat)),
    Douban.DimInv dim → (∀ q ∈ assoc, q.2 < dim.next_id) →
    Douban.DimInv (Douban.ensureLoop mid ns dim assoc).1 ∧
    (∀ q ∈ (Douban.ensureLoop mid ns dim assoc).2,
      q.2 < (Douban.ensureLoop mid ns dim assoc).1.next_id) ∧
    dim.next_id ≤ (Douban.ensureLoop mid ns dim assoc).1.next_id ∧
    (∃ ext, (Douban.ensureLoop mid ns dim assoc).1.rows = dim.rows ++ ext ∧
      ∀ p ∈ ext, dim.next_id ≤ p.1 ∧ ∀ q ∈ dim.rows, q.2 ≠ p.2) ∧
    (∃ aext, (Douban.ensureLoop mid ns dim assoc).2 = assoc ++ aext ∧
      ∀ q ∈ aext, q.1 = mid) := by
  intro ns
  induction ns with
  | nil =>
    intro mid dim assoc hinv hass
    exact ⟨hinv, hass, le_refl _, ⟨[], by simp [Douban.ensureLoop], by simp⟩,
      ⟨[], by simp [Douban.ensureLoop], by simp⟩⟩
  | cons a rest ih =>
    intro mid dim assoc hinv hass
    have hbase : Douban.ensureLoop mid (a :: rest) dim assoc =
        Douban.ensureLoop mid rest (Douban.dimUpsert dim a).2
          (Douban.insertIgnore assoc mid (Douban.dimUpsert dim a).1) := rfl
    rcases dimUpsert_cases dim a with ⟨j, hjmem, heq⟩ | ⟨hfr, heq⟩
    · have hstep : Douban.ensureLoop mid (a :: rest) dim assoc =
          Douban.ensureLoop mid rest dim (Douban.insertIgnore assoc mid j) := by
        rw [hbase, heq]
      rw [hstep]
      have hass2 : ∀ q ∈ Douban.insertIgnore assoc mid j,
          q.2 < dim.next_id :=
        insertIgnore_bound assoc mid j dim.next_id hass
          (hinv.2.2 (j, a) hjmem)
      obtain ⟨h1, h2, h3, hext, ⟨aext, haext, haextp⟩⟩ :=
        ih mid dim (Douban.insertIgnore assoc mid j) hinv hass2
      refine ⟨h1, h2, h3, hext, ?_⟩
      rcases insertIgnore_shape assoc mid j with hs | hs
      · exact ⟨aext, by rw [haext, hs], haextp⟩
      · refine ⟨(mid, j) :: aext, by rw [haext, hs]; simp, ?_⟩
        intro q hq
        rcases List.mem_cons.mp hq with rfl | hq2
        · rfl
        · exact haextp q hq2
    · have hstep : Douban.ensureLoop mid (a :: rest) dim assoc =
          Douban.ensureLoop mid rest
            ⟨dim.rows ++ [(dim.next_id, a)], dim.next_id + 1⟩
            (Douban.insertIgnore assoc mid dim.next_id) := by
        rw [hbase, heq]
      rw [hstep]
      have hinv2 := dimInsert_inv dim a hinv hfr
      have hass2 : ∀ q ∈ Douban.insertIgnore assoc mid dim.next_id,
          q.2 < dim.next_id + 1 := by
        apply insertIgnore_bound
        · intro q hq
          have := hass q hq
          omega
        · omega
      obtain ⟨h1, h2, h3, ⟨ext, hext, hextp⟩, ⟨aext, haext, haextp⟩⟩ :=
        ih mid ⟨dim.rows ++ [(dim.next_id, a)], dim.next_id + 1⟩
          (Douban.insertIgnore assoc mid dim.next_id) hinv2 hass2
      refine ⟨h1, h2, by simp only at h3; omega, ?_, ?_⟩
      · refine ⟨(dim.next_id, a) :: ext, ?_, ?_⟩
        · rw [hext]
          simp
        · intro p hp
          rcases List.mem_cons.mp hp with rfl | hp2
          · exact ⟨le_refl _, fun q hq => hfr q hq⟩
          · obtain ⟨hle, hfr2⟩ := hextp p hp2
            simp only at hle
            refine ⟨by omega, ?_⟩
            intro q hq
            exact hfr2 q (List.mem_append.mpr (Or.inl hq))
      · rcases insertIgnore_shape assoc mid dim.next_id with hs | hs
        · exact ⟨aext, by rw [haext, hs], haextp⟩
        · refine ⟨(mid, dim.next_id) :: aext, by rw [haext, hs]; simp, ?_⟩
          intro q hq
          rcases List.mem_cons.mp hq with rfl | hq2
          · rfl
          · exact haextp q hq2

/-- Iterations whose names differ from `n` never touch an association pair
pointing at `n`'s dimension id. -/
theorem ensureLoop_count_preserved : ∀ (ns : List String) (mid : Nat)
    (dim : Douban.DimTable) (assoc : List (Nat × Nat)) (m0 i : Nat)
    (n : String),
    Douban.DimInv dim → (∀ q ∈ assoc, q.2 < dim.next_id) →
    (i, n) ∈ dim.rows → n ∉ ns →
    Douban.pairCount (Douban.ensureLoop mid ns dim assoc).2 (m0, i) =
      Douban.pairCount assoc (m0, i) := by
  intro ns
  induction ns with
  | nil =>
    intro mid dim assoc m0 i n hinv hass hmem hns
    rfl
  | cons a rest ih =>
    intro mid dim assoc m0 i n hinv hass hmem hns
    have hne : a ≠ n := by
      intro h
      exact hns (h ▸ List.mem_cons_self a rest)
    have hnrest : n ∉ rest := fun h => hns (List.mem_cons_of_mem _ h)
    have hbase : Douban.ensureLoop mid (a :: rest) dim assoc =
        Douban.ensureLoop mid rest (Douban.dimUpsert dim a).2
          (Douban.insertIgnore assoc mid (Douban.dimUpsert dim a).1) := rfl
    rcases dimUpsert_cases dim a with ⟨j, hjmem, heq⟩ | ⟨hfr, heq⟩
    · have hji : j ≠ i := by
        intro h
        subst h
        exact hne (dim_name_of_id dim hinv hjmem hmem)
      have hstep : Douban.ensureLoop mid (a :: rest) dim assoc =
          Douban.ensureLoop mid rest dim (Douban.insertIgnore assoc mid j) := by
        rw [hbase, heq]
      rw [hstep]
      have hass2 : ∀ q ∈ Douban.insertIgnore assoc mid j, q.2 < dim.next_id :=
        insertIgnore_bound assoc mid j dim.next_id hass (hinv.2.2 (j, a) hjmem)
      rw [ih mid dim _ m0 i n hinv hass2 hmem hnrest]
      exact pairCount_insertIgnore_ne assoc mid j (m0, i) (by
        intro h
        exact hji ((Prod.ext_iff.mp h).2).symm)
    · have hji : dim.next_id ≠ i := by
        have := hinv.2.2 (i, n) hmem
        simp only at this
        omega
      have hstep : Douban.ensureLoop mid (a :: rest) dim assoc =
          Douban.ensureLoop mid rest
            ⟨dim.rows ++ [(dim.next_id, a)], dim.next_id + 1⟩
            (Douban.insertIgnore assoc mid dim.next_id) := by
        rw [hbase, heq]
      rw [hstep]
      have hinv2 := dimInsert_inv dim a hinv hfr
      have hass2 : ∀ q ∈ Douban.insertIgnore assoc mid dim.next_id,
          q.2 < dim.next_id + 1 := by
        apply insertIgnore_bound
        · intro q hq
          have := hass q hq
          omega
        · omega
      have hmem2 : (i, n) ∈ dim.rows ++ [(dim.next_id, a)] :=
        List.mem_append.mpr (Or.inl hmem)
      rw [ih mid ⟨dim.rows ++ [(dim.next_id, a)], dim.next_id + 1⟩ _ m0 i n
        hinv2 hass2 hmem2 hnrest]
      exact pairCount_insertIgnore_ne assoc mid dim.next_id (m0, i) (by
        intro h
        exact hji ((Prod.ext_iff.mp h).2).symm)

/-- A loop run containing name `n`, whose dimension row `(i, n)` already
exists, applies the idempotent association insert for `(mid, i)` exactly
once. -/
theorem ensureLoop_pair_one : ∀ (ns : List String) (mid : Nat)
    (dim : Douban.DimTable) (assoc : List (Nat × Nat)) (i : Nat) (n : String),
    Douban.DimInv dim → (∀ q ∈ assoc, q.2 < dim.next_id) → ns.Nodup →
    n ∈ ns → (i, n) ∈ dim.rows →
    Douban.pairCount (Douban.ensureLoop mid ns dim assoc).2 (mid, i) =
      (if (mid, i) ∈ assoc then Douban.pairCount assoc (mid, i)
       else Douban.pairCount assoc (mid, i) + 1) := by
  intro ns
  induction ns with
  | nil =>
    intro mid dim assoc i n _ _ _ hn
    exact absurd hn (List.not_mem_nil n)
  | cons a rest ih =>
    intro mid dim assoc i n hinv hass hnd hn hmem
    have hbase : Douban.ensureLoop mid (a :: rest) dim assoc =
        Douban.ensureLoop mid rest (Douban.dimUpsert dim a).2
          (Douban.insertIgnore assoc mid (Douban.dimUpsert dim a).1) := rfl
    by_cases han : a = n
    · subst han
      rcases dimUpsert_cases dim a with ⟨j, hjmem, heq⟩ | ⟨hfr, heq⟩
      · have hji : j = i := dim_id_of_name dim hinv hjmem hmem
        subst hji
        have hstep : Douban.ensureLoop mid (a :: rest) dim assoc =
            Douban.ensureLoop mid rest dim
              (Douban.insertIgnore assoc mid j) := by
          rw [hbase, heq]
        rw [hstep]
        have hass2 : ∀ q ∈ Douban.insertIgnore assoc mid j,
            q.2 < dim.next_id :=
          insertIgnore_bound assoc mid j dim.next_id hass
            (hinv.2.2 (j, a) hjmem)
        have hnrest : a ∉ rest := (List.nodup_cons.mp hnd).1
        rw [ensureLoop_count_preserved rest mid dim _ mid j a hinv hass2
          hmem hnrest]
        exact pairCount_insertIgnore_self assoc mid j
      · exact absurd rfl (hfr (i, a) hmem)
    · have hnrest : n ∈ rest := by
        rcases List.mem_cons.mp hn with h | h
        · exact absurd h.symm han
        · exact h
      have hndrest : rest.Nodup := (List.nodup_cons.mp hnd).2
      rcases dimUpsert_cases dim a with ⟨j, hjmem, heq⟩ | ⟨hfr, heq⟩
      · have hji : j ≠ i := by
          intro h
          subst h
          exact han (dim_name_of_id dim hinv hjmem hmem)
        have hqne : (mid, i) ≠ (mid, j) := by
          intro h
          exact hji ((Prod.ext_iff.mp h).2).symm
        have hstep : Douban.ensureLoop mid (a :: rest) dim assoc =
            Douban.ensureLoop mid rest dim
              (Douban.insertIgnore assoc mid j) := by
          rw [hbase, heq]
        rw [hstep]
        have hass2 : ∀ q ∈ Douban.insertIgnore assoc mid j,
            q.2 < dim.next_id :=
          insertIgnore_bound assoc mid j dim.next_id hass
            (hinv.2.2 (j, a) hjmem)
        rw [ih mid dim _ i n hinv hass2 hndrest hnrest hmem]
        have hiff : (mid, i) ∈ Douban.insertIgnore assoc mid j ↔
            (mid, i) ∈ assoc := by
          constructor
          · intro h
            rcases mem_insertIgnore _ _ _ _ h with h2 | h2
            · exact h2
            · exact absurd h2 hqne
          · exact mem_insertIgnore_of_mem _ _ _ _
        rw [pairCount_insertIgnore_ne assoc mid j (mid, i) hqne]
        by_cases hm : (mid, i) ∈ assoc
        · rw [if_pos (hiff.mpr hm), if_pos hm]
        · rw [if_neg (fun h => hm (hiff.mp h)), if_neg hm]
      · have hji : dim.next_id ≠ i := by
          have := hinv.2.2 (i, n) hmem
          simp only at this
          omega
        have hqne : (mid, i) ≠ (mid, dim.next_id) := by
          intro h
          exact hji ((Prod.ext_iff.mp h).2).symm
        have hstep : Douban.ensureLoop mid (a :: rest) dim assoc =
            Douban.ensureLoop mid rest
              ⟨dim.rows ++ [(dim.next_id, a)], dim.next_id + 1⟩
              (Douban.insertIgnore assoc mid dim.next_id) := by
          rw [hbase, heq]
        rw [hstep]
        have hinv2 := dimInsert_inv dim a hinv hfr
        have hass2 : ∀ q ∈ Douban.insertIgnore assoc mid dim.next_id,
            q.2 < dim.next_id + 1 := by
          apply insertIgnore_bound
          · intro q hq
            have := hass q hq
            omega
          · omega
        have hmem2 : (i, n) ∈ dim.rows ++ [(dim.next_id, a)] :=
          List.mem_append.mpr (Or.inl hmem)
        rw [ih mid ⟨dim.rows ++ [(dim.next_id, a)], dim.next_id + 1⟩ _ i n
          hinv2 hass2 hndrest hnrest hmem2]
        have hiff : (mid, i) ∈ Douban.insertIgnore assoc mid dim.next_id ↔
            (mid, i) ∈ assoc := by
          constructor
          · intro h
            rcases mem_insertIgnore _ _ _ _ h with h2 | h2
            · exact h2
            · exact absurd h2 hqne
          · exact mem_insertIgnore_of_mem _ _ _ _
        rw [pairCount_insertIgnore_ne assoc mid dim.next_id (mid, i) hqne]
        by_cases hm : (mid, i) ∈ assoc
        · rw [if_pos (hiff.mpr hm), if_pos hm]
        · rw [if_neg (fun h => hm (hiff.mp h)), if_neg hm]

/-- A loop run containing a name `n` that is new to the dimension table
creates exactly one `(i, n)` dimension row (with a fresh id) and exactly
one `(mid, i)` association row. -/
theorem ensureLoop_creates : ∀ (ns : List String) (mid : Nat)
    (dim : Douban.DimTable) (assoc : List (Nat × Nat)) (n : String),
    Douban.DimInv dim → (∀ q ∈ assoc, q.2 < dim.next_id) → ns.Nodup →
    n ∈ ns → (∀ p ∈ dim.rows, p.2 ≠ n) →
    ∃ i, dim.next_id ≤ i ∧
      (i, n) ∈ (Douban.ensureLoop mid ns dim assoc).1.rows ∧
      (Douban.ensureLoop mid ns dim assoc).1.rows.filter
        (fun p => decide (p.2 = n)) = [(i, n)] ∧
      Douban.pairCount (Douban.ensureLoop mid ns dim assoc).2 (mid, i) = 1 := by
  intro ns
  induction ns with
  | nil =>
    intro mid dim assoc n _ _ _ hn
    exact absurd hn (List.not_mem_nil n)
  | cons a rest ih =>
    intro mid dim assoc n hinv hass hnd hn hfresh
    have hbase : Douban.ensureLoop mid (a :: rest) dim assoc =
        Douban.ensureLoop mid rest (Douban.dimUpsert dim a).2
          (Douban.insertIgnore assoc mid (Douban.dimUpsert dim a).1) := rfl
    by_cases han : a = n
    · subst han
      rcases dimUpsert_cases dim a with ⟨j, hjmem, heq⟩ | ⟨hfr, heq⟩
      · exact absurd rfl (hfresh (j, a) hjmem)
      · have hstep : Douban.ensureLoop mid (a :: rest) dim assoc =
            Douban.ensureLoop mid rest
              ⟨dim.rows ++ [(dim.next_id, a)], dim.next_id + 1⟩
              (Douban.insertIgnore assoc mid dim.next_id) := by
          rw [hbase, heq]
        rw [hstep]
        have hinv2 := dimInsert_inv dim a hinv hfr
        have hnotin : (mid, dim.next_id) ∉ assoc := by
          intro h
          have := hass (mid, dim.next_id) h
          simp only at this
          omega
        have hio : Douban.insertIgnore assoc mid dim.next_id =
            assoc ++ [(mid, dim.next_id)] := by
          unfold Douban.insertIgnore
          rw [if_neg hnotin]
        have hass2 : ∀ q ∈ Douban.insertIgnore assoc mid dim.next_id,
            q.2 < dim.next_id + 1 := by
          apply insertIgnore_bound
          · intro q hq
            have := hass q hq
            omega
          · omega
        have hmem2 : (dim.next_id, a) ∈ dim.rows ++ [(dim.next_id, a)] :=
          List.mem_append.mpr (Or.inr (List.mem_singleton_self _))
        have hnrest : a ∉ rest := (List.nodup_cons.mp hnd).1
        refine ⟨dim.next_id, le_refl _, ?_, ?_, ?_⟩
        · obtain ⟨_, _, _, ⟨ext, hext, _⟩, _⟩ :=
            ensureLoop_inv rest mid
              ⟨dim.rows ++ [(dim.next_id, a)], dim.next_id + 1⟩
              (Douban.insertIgnore assoc mid dim.next_id) hinv2 hass2
          rw [hext]
          exact List.mem_append.mpr (Or.inl hmem2)
        · obtain ⟨_, _, _, ⟨ext, hext, hextp⟩, _⟩ :=
            ensureLoop_inv rest mid
              ⟨dim.rows ++ [(dim.next_id, a)], dim.next_id + 1⟩
              (Douban.insertIgnore assoc mid dim.next_id) hinv2 hass2
          rw [hext, List.filter_append]
          have h1 : (dim.rows ++ [(dim.next_id, a)]).filter
              (fun p => decide (p.2 = a)) = [(dim.next_id, a)] := by
            rw [List.filter_append]
            have hnil : dim.rows.filter (fun p => decide (p.2 = a)) = [] := by
              apply filter_eq_nil_of_all
              intro p hp
              simpa using hfr p hp
            rw [hnil]
            simp
          have h2 : ext.filter (fun p => decide (p.2 = a)) = [] := by
            apply filter_eq_nil_of_all
            intro p hp
            have := (hextp p hp).2 (dim.next_id, a) hmem2
            simpa using fun he => this (by rw [he])
          rw [h1, h2]
          simp
        · rw [ensureLoop_count_preserved rest mid
            ⟨dim.rows ++ [(dim.next_id, a)], dim.next_id + 1⟩
            (Douban.insertIgnore assoc mid dim.next_id) mid dim.next_id a
            hinv2 hass2 hmem2 hnrest]
          rw [hio, pairCount_append, pairCount_eq_zero assoc _ hnotin,
            pairCount_singleton_self]
    · have hnrest : n ∈ rest := by
        rcases List.mem_cons.mp hn with h | h
        · exact absurd h.symm han
        · exact h
      have hndrest : rest.Nodup := (List.nodup_cons.mp hnd).2
      rcases dimUpsert_cases dim a with ⟨j, hjmem, heq⟩ | ⟨hfr, heq⟩
      · have hstep : Douban.ensureLoop mid (a :: rest) dim assoc =
            Douban.ensureLoop mid rest dim
              (Douban.insertIgnore assoc mid j) := by
          rw [hbase, heq]
        rw [hstep]
        have hass2 : ∀ q ∈ Douban.insertIgnore assoc mid j,
            q.2 < dim.next_id :=
          insertIgnore_bound assoc mid j dim.next_id hass
            (hinv.2.2 (j, a) hjmem)
        exact ih mid dim _ n hinv hass2 hndrest hnrest hfresh
      · have hstep : Douban.ensureLoop mid (a :: rest) dim assoc =
            Douban.ensureLoop mid rest
              ⟨dim.rows ++ [(dim.next_id, a)], dim.next_id + 1⟩
              (Douban.insertIgnore assoc mid dim.next_id) := by
          rw [hbase, heq]
        rw [hstep]
        have hinv2 := dimInsert_inv dim a hinv hfr
        have hass2 : ∀ q ∈ Douban.insertIgnore assoc mid dim.next_id,
            q.2 < dim.next_id + 1 := by
          apply insertIgnore_bound
          · intro q hq
            have := hass q hq
            omega
          · omega
        have hfresh2 : ∀ p ∈ dim.rows ++ [(dim.next_id, a)], p.2 ≠ n := by
          intro p hp
          rcases List.mem_append.mp hp with hp2 | hp2
          · exact hfresh p hp2
          · rw [List.mem_singleton.mp hp2]
            simpa using han
        obtain ⟨i, hile, hrest⟩ :=
          ih mid ⟨dim.rows ++ [(dim.next_id, a)], dim.next_id + 1⟩
            (Douban.insertIgnore assoc mid dim.next_id) n hinv2 hass2
            hndrest hnrest hfresh2
        refine ⟨i, ?_, hrest⟩
        simp only at hile
        omega

/-- C2: two `ensure_dim_and_map` calls that both introduce the same new
category name `n` — in either order, for the same or different record ids —
leave exactly one dimension row for `n` and resolve the same dimension
surrogate id `i` in both calls: afterwards the association table holds
exactly one `(r1, i)` row and exactly one `(r2, i)` row (one single row
when `r1 = r2`, the duplicate insert being an idempotent no-op rather than
an error). -/
theorem ensure_dim_and_map_convergence
    (dim : Douban.DimTable) (assoc : List (Nat × Nat)) (r1 r2 : Nat)
    (names1 names2 : List String) (n : String)
    (hinv : Douban.DimInv dim)
    (hassoc : ∀ q ∈ assoc, q.2 < dim.next_id)
    (hfresh : ∀ p ∈ dim.rows, p.2 ≠ n)
    (hn1 : n ∈ Douban.cleanNames names1)
    (hn2 : n ∈ Douban.cleanNames names2) :
    ∃ i,
      (Douban.ensure_dim_and_map r2 names2
        (Douban.ensure_dim_and_map r1 names1 dim assoc).1
        (Douban.ensure_dim_and_map r1 names1 dim assoc).2).1.rows.filter
          (fun p => decide (p.2 = n)) = [(i, n)] ∧
      Douban.pairCount
        (Douban.ensure_dim_and_map r2 names2
          (Douban.ensure_dim_and_map r1 names1 dim assoc).1
          (Douban.ensure_dim_and_map r1 names1 dim assoc).2).2 (r1, i) = 1 ∧
      Douban.pairCount
        (Douban.ensure_dim_and_map r2 names2
          (Douban.ensure_dim_and_map r1 names1 dim assoc).1
          (Douban.ensure_dim_and_map r1 names1 dim assoc).2).2 (r2, i) = 1 := by
  have he1 : Douban.ensure_dim_and_map r1 names1 dim assoc =
      Douban.ensureLoop r1 (Douban.cleanNames names1) dim assoc := by
    show (if Douban.cleanNames names1 = [] then (dim, assoc)
      else Douban.ensureLoop r1 (Douban.cleanNames names1) dim assoc) = _
    rw [if_neg (List.ne_nil_of_mem hn1)]
  rw [he1]
  obtain ⟨i, hile, hmem1, hfil1, hcnt1⟩ :=
    ensureLoop_creates (Douban.cleanNames names1) r1 dim assoc n hinv hassoc
      (cleanNames_nodup names1) hn1 hfresh
  obtain ⟨hinv1, hass1, _, _, ⟨aext1, haext1, haextp1⟩⟩ :=
    ensureLoop_inv (Douban.cleanNames names1) r1 dim assoc hinv hassoc
  have he2 : Douban.ensure_dim_and_map r2 names2
      (Douban.ensureLoop r1 (Douban.cleanNames names1) dim assoc).1
      (Douban.ensureLoop r1 (Douban.cleanNames names1) dim assoc).2 =
      Douban.ensureLoop r2 (Douban.cleanNames names2)
        (Douban.ensureLoop r1 (Douban.cleanNames names1) dim assoc).1
        (Douban.ensureLoop r1 (Douban.cleanNames names1) dim assoc).2 := by
    show (if Douban.cleanNames names2 = [] then _
      else Douban.ensureLoop r2 (Douban.cleanNames names2) _ _) = _
    rw [if_neg (List.ne_nil_of_mem hn2)]
  rw [he2]
  obtain ⟨_, _, _, ⟨ext2, hext2, hextp2⟩, ⟨aext2, haext2, haextp2⟩⟩ :=
    ensureLoop_inv (Douban.cleanNames names2) r2
      (Douban.ensureLoop r1 (Douban.cleanNames names1) dim assoc).1
      (Douban.ensureLoop r1 (Douban.cleanNames names1) dim assoc).2
      hinv1 hass1
  refine ⟨i, ?_, ?_, ?_⟩
  · rw [hext2, List.filter_append, hfil1]
    have h2 : ext2.filter (fun p => decide (p.2 = n)) = [] := by
      apply filter_eq_nil_of_all
      intro p hp
      have := (hextp2 p hp).2 (i, n) hmem1
      simpa using fun he => this (by rw [he])
    rw [h2]
    simp
  · by_cases hr12 : r1 = r2
    · subst hr12
      rw [ensureLoop_pair_one (Douban.cleanNames names2) r1
        (Douban.ensureLoop r1 (Douban.cleanNames names1) dim assoc).1
        (Douban.ensureLoop r1 (Douban.cleanNames names1) dim assoc).2 i n
        hinv1 hass1 (cleanNames_nodup names2) hn2 hmem1]
      have hmem : (r1, i) ∈
          (Douban.ensureLoop r1 (Douban.cleanNames names1) dim assoc).2 :=
        pairCount_pos_mem _ _ (by rw [hcnt1]; omega)
      rw [if_pos hmem, hcnt1]
    · rw [haext2, pairCount_append, hcnt1]
      have h0 : Douban.pairCount aext2 (r1, i) = 0 := by
        apply pairCount_eq_zero
        intro hmem
        exact hr12 (haextp2 (r1, i) hmem)
      rw [h0]
  · rw [ensureLoop_pair_one (Douban.cleanNames names2) r2
      (Douban.ensureLoop r1 (Douban.cleanNames names1) dim assoc).1
      (Douban.ensureLoop r1 (Douban.cleanNames names1) dim assoc).2 i n
      hinv1 hass1 (cleanNames_nodup names2) hn2 hmem1]
    by_cases hr12 : r1 = r2
    · subst hr12
      have hmem : (r1, i) ∈
          (Douban.ensureLoop r1 (Douban.cleanNames names1) dim assoc).2 :=
        pairCount_pos_mem _ _ (by rw [hcnt1]; omega)
      rw [if_pos hmem, hcnt1]
    · have hnotin : (r2, i) ∉
          (Douban.ensureLoop r1 (Douban.cleanNames names1) dim assoc).2 := by
        rw [haext1]
        intro hmem
        rcases List.mem_append.mp hmem with hm | hm
        · have := hassoc (r2, i) hm
          simp only at this
          omega
        · exact hr12 ((haextp1 (r2, i) hm).symm)
      rw [if_neg hnotin, pairCount_eq_zero _ _ hnotin]

/-- Witness for C2 at a concrete state: an empty dimension table, two
calls with the new genre name 剧情 (the second with surrounding
whitespace, exercising the trim) for records 5 and 6. -/
theorem ensure_dim_and_map_convergence_witness :
    ∃ i,
      (Douban.ensure_dim_and_map 6 [" 剧情 "]
        (Douban.ensure_dim_and_map 5 ["剧情"] ⟨[], 1⟩ []).1
        (Douban.ensure_dim_and_map 5 ["剧情"] ⟨[], 1⟩ []).2).1.rows.filter
          (fun p => decide (p.2 = "剧情")) = [(i, "剧情")] ∧
      Douban.pairCount
        (Douban.ensure_dim_and_map 6 [" 剧情 "]
          (Douban.ensure_dim_and_map 5 ["剧情"] ⟨[], 1⟩ []).1
          (Douban.ensure_dim_and_map 5 ["剧情"] ⟨[], 1⟩ []).2).2 (5, i) = 1 ∧
      Douban.pairCount
        (Douban.ensure_dim_and_map 6 [" 剧情 "]
          (Douban.ensure_dim_and_map 5 ["剧情"] ⟨[], 1⟩ []).1
          (Douban.ensure_dim_and_map 5 ["剧情"] ⟨[], 1⟩ []).2).2 (6, i) = 1 :=
  ensure_dim_and_map_convergence ⟨[], 1⟩ [] 5 6 ["剧情"] [" 剧情 "] "剧情"
    ⟨by simp, by simp, by simp⟩ (by simp) (by simp) (by decide) (by decide)
